import Mathlib

/-!
Verification of the force-directed layout core of the `eoeo` repository
(`src/utils/data-loader.ts` and the `ForceSimulation` class of
`src/utils/app-state.ts`).

The embedding is shallow:

* scores and shortest-path weights are JavaScript numbers that the source
  only ever combines with `+`, `*`, `/` by nonzero constants and
  comparisons, so they are modelled as rationals (`ℚ`);
* node positions and velocities flow through `Math.sqrt` / `Math.atan2` /
  `Math.cos` / `Math.sin`, so they are modelled as real numbers (`ℝ`),
  with ideal real arithmetic standing in for IEEE floats;
* the `Map` objects used by the source are modelled as association lists
  with JavaScript `Map.set` semantics (`mapSet` / `mapGet?`), and the two
  comparisons the source performs against a possibly-`undefined` /
  possibly-`Infinity` lookup are modelled by `jsLtGet` / `jsGtGet`;
* `Infinity` (the initial distance of every node) is the `none` value of
  an `Option ℚ` distance; a `Map` miss (`undefined`) is the outer `none`
  of `Option (Option ℚ)`;
* the `while` loop of Dijkstra's algorithm is run on explicit fuel; every
  property proved below holds for every amount of fuel, in particular for
  any fuel large enough to drain the queue;
* `Math.random()` is an explicit stream of reals in `[0, 1)`;
* node buffers are duplicate-free by construction (`setData` builds them
  from nodes with unique ids), so in-place mutation through the
  `nodeById` map is modelled as update-by-id on the node list.
-/

namespace Eoeo

/-- `Node` record of `src/types/fractal-types.ts` (string-typed `kind`
so unrecognized kinds, present in the data, are representable). -/
structure Node where
  id : String
  label : String
  group : String
  kind : String
  layer : Int
deriving DecidableEq, Repr

/-- `Edge` record of `src/types/fractal-types.ts`; the three scores are
optional 0–100 numbers. -/
structure Edge where
  source : String
  target : String
  type : String
  meaning : Option ℚ := none
  influence : Option ℚ := none
  chronology : Option ℚ := none
deriving DecidableEq, Repr

/-- `SimulationNode` of `src/types/fractal-types.ts`: a `Node` plus
mutable physics state. -/
structure SimulationNode extends Node where
  x : ℝ
  y : ℝ
  vx : ℝ
  vy : ℝ

/-- `passByMetric` of `src/utils/data-loader.ts` (lines 49–67): the
metric-specific inclusion threshold for non-primary edges. -/
def passByMetric (meaning influence chronology : ℚ) (metric : String) : Bool :=
  if metric = "combined" then decide ((0.4 * meaning + 0.4 * influence + 0.2 * chronology) ≥ 60)
  else if metric = "meaning" then decide (meaning ≥ 65)
  else if metric = "influence" then decide (influence ≥ 50)
  else if metric = "chronology" then decide (chronology ≥ 85)
  else false

/-- `edgeWeight` of `src/utils/data-loader.ts` (lines 69–95): lineage
edges weigh `1.0`; other edges weigh `1 + 1.8·((100 − score)/100)` where
`score` blends the edge's scores (defaults 70/50/90) per the metric. -/
def edgeWeight (edge : Edge) (metric : String) : ℚ :=
  if edge.type = "lineage" then 1.0
  else
    let m := edge.meaning.getD 70
    let i := edge.influence.getD 50
    let c := edge.chronology.getD 90
    let score : ℚ :=
      if metric = "combined" then 0.4 * m + 0.4 * i + 0.2 * c
      else if metric = "meaning" then m
      else if metric = "influence" then i
      else if metric = "chronology" then c
      else (m + i + c) / 3
    1 + 1.8 * ((100 - score) / 100)

/-- The composite score `S` selected by a metric (the `switch` inside
`edgeWeight`), as a standalone function for stating the weight formula. -/
def compositeScore (m i c : ℚ) (metric : String) : ℚ :=
  if metric = "combined" then 0.4 * m + 0.4 * i + 0.2 * c
  else if metric = "meaning" then m
  else if metric = "influence" then i
  else if metric = "chronology" then c
  else (m + i + c) / 3

/-- The score-to-weight formula `S ↦ 1 + 1.8·((100 − S)/100)` applied on
the non-lineage branch of `edgeWeight`. -/
def weightOfScore (S : ℚ) : ℚ :=
  1 + 1.8 * ((100 - S) / 100)

theorem edgeWeight_eq_weightOfScore (e : Edge) (metric : String) (h : e.type ≠ "lineage") :
    edgeWeight e metric =
      weightOfScore (compositeScore (e.meaning.getD 70) (e.influence.getD 50)
        (e.chronology.getD 90) metric) := by
  simp only [edgeWeight, weightOfScore, compositeScore, if_neg h]

theorem weightOfScore_strictAnti : StrictAnti weightOfScore := by
  intro a b hab
  simp only [weightOfScore]
  linarith

/-- An optional score is well formed when, if present, it lies in `[0, 100]`. -/
def scoreOK (o : Option ℚ) : Prop := ∀ q, o = some q → 0 ≤ q ∧ q ≤ 100

/-- All three scores of an edge lie in the data model's `[0, 100]` range. -/
def edgeScoresOK (e : Edge) : Prop :=
  scoreOK e.meaning ∧ scoreOK e.influence ∧ scoreOK e.chronology

theorem scoreOK_getD_bounds {o : Option ℚ} (d : ℚ) (h : scoreOK o)
    (h0 : 0 ≤ d) (h100 : d ≤ 100) : 0 ≤ o.getD d ∧ o.getD d ≤ 100 := by
  cases o with
  | none => simpa using ⟨h0, h100⟩
  | some q => simpa using h q rfl

theorem compositeScore_bounds {m i c : ℚ} (metric : String)
    (hm : 0 ≤ m ∧ m ≤ 100) (hi : 0 ≤ i ∧ i ≤ 100) (hc : 0 ≤ c ∧ c ≤ 100) :
    0 ≤ compositeScore m i c metric ∧ compositeScore m i c metric ≤ 100 := by
  obtain ⟨hm0, hm1⟩ := hm
  obtain ⟨hi0, hi1⟩ := hi
  obtain ⟨hc0, hc1⟩ := hc
  unfold compositeScore
  split
  · constructor <;> nlinarith
  · split
    · exact ⟨hm0, hm1⟩
    · split
      · exact ⟨hi0, hi1⟩
      · split
        · exact ⟨hc0, hc1⟩
        · constructor <;> nlinarith

theorem weightOfScore_bounds {S : ℚ} (h0 : 0 ≤ S) (h1 : S ≤ 100) :
    1 ≤ weightOfScore S ∧ weightOfScore S ≤ 2.8 := by
  unfold weightOfScore
  constructor <;> nlinarith

/-- For well-scored edges every weight is at least `1`, in particular
nonnegative. -/
theorem edgeWeight_nonneg {e : Edge} (metric : String) (h : edgeScoresOK e) :
    0 ≤ edgeWeight e metric := by
  by_cases ht : e.type = "lineage"
  · simp only [edgeWeight, ht, if_true, if_pos]
    norm_num
  · rw [edgeWeight_eq_weightOfScore e metric ht]
    obtain ⟨hm, hi, hc⟩ := h
    have hmb := scoreOK_getD_bounds 70 hm (by norm_num) (by norm_num)
    have hib := scoreOK_getD_bounds 50 hi (by norm_num) (by norm_num)
    have hcb := scoreOK_getD_bounds 90 hc (by norm_num) (by norm_num)
    have hb := compositeScore_bounds metric hmb hib hcb
    have := weightOfScore_bounds hb.1 hb.2
    linarith [this.1]

/-- A concrete lineage edge with arbitrary scores, for witnesses. -/
def lineageEdge : Edge :=
  { source := "a", target := "b", type := "lineage",
    meaning := some 3, influence := some 99, chronology := some 47 }

/-- A concrete cross edge carrying the default scores explicitly. -/
def crossEdge : Edge :=
  { source := "a", target := "b", type := "cross",
    meaning := some 70, influence := some 50, chronology := some 90 }

/-- **C5** — For every edge whose type is the primary-lineage type
(`"lineage"`) and every metric string, recognized or not, `edgeWeight`
returns exactly `1.0`, independent of the edge's scores. -/
theorem lineage_edgeWeight_one (e : Edge) (metric : String) (h : e.type = "lineage") :
    edgeWeight e metric = 1 := by
  simp only [edgeWeight, h, if_true, if_pos]
  norm_num

/-- Witness for `lineage_edgeWeight_one`: a concrete lineage edge with
arbitrary scores, under an unrecognized metric, weighs `1`. -/
theorem lineage_edgeWeight_one_witness : edgeWeight lineageEdge "bogus" = 1 :=
  lineage_edgeWeight_one _ "bogus" (by decide)

/-- **C4** — On every non-lineage edge `edgeWeight` is exactly
`weightOfScore` of the metric's composite score; `weightOfScore` is
strictly decreasing, takes the value `1.0` at score `100` and `2.8` at
score `0`. -/
theorem edgeWeight_formula_strictAnti :
    (∀ (e : Edge) (metric : String), e.type ≠ "lineage" →
        (∀ q, e.meaning = some q → 0 ≤ q ∧ q ≤ 100) →
        (∀ q, e.influence = some q → 0 ≤ q ∧ q ≤ 100) →
        (∀ q, e.chronology = some q → 0 ≤ q ∧ q ≤ 100) →
        edgeWeight e metric =
          weightOfScore (compositeScore (e.meaning.getD 70) (e.influence.getD 50)
            (e.chronology.getD 90) metric)) ∧
      StrictAnti weightOfScore ∧ weightOfScore 100 = 1 ∧ weightOfScore 0 = 2.8 := by
  refine ⟨fun e metric h _ _ _ => edgeWeight_eq_weightOfScore e metric h,
    weightOfScore_strictAnti, by norm_num [weightOfScore], by norm_num [weightOfScore]⟩

/-- Witness for `edgeWeight_formula_strictAnti`: the formula evaluated on
a concrete cross edge, and strict decrease between scores 50 and 100. -/
theorem edgeWeight_formula_strictAnti_witness :
    edgeWeight crossEdge "combined" = weightOfScore (compositeScore 70 50 90 "combined") ∧
      weightOfScore 100 < weightOfScore 50 := by
  constructor
  · have h := edgeWeight_formula_strictAnti.1 crossEdge "combined" (by decide)
      (by intro q hq; simp [crossEdge] at hq; simp [← hq]; norm_num)
      (by intro q hq; simp [crossEdge] at hq; simp [← hq]; norm_num)
      (by intro q hq; simp [crossEdge] at hq; simp [← hq]; norm_num)
    simpa [crossEdge] using h
  · exact edgeWeight_formula_strictAnti.2.1 (by norm_num)

/-- **C6** — `passByMetric` holds exactly when the metric's threshold is
met: combined `0.4m+0.4i+0.2c ≥ 60`, meaning `≥ 65`, influence `≥ 50`,
chronology `≥ 85`; every unrecognized metric excludes the edge. -/
theorem passByMetric_iff (m i c : ℚ) (metric : String) :
    passByMetric m i c metric = true ↔
      ((metric = "combined" ∧ 0.4 * m + 0.4 * i + 0.2 * c ≥ 60) ∨
       (metric = "meaning" ∧ m ≥ 65) ∨
       (metric = "influence" ∧ i ≥ 50) ∨
       (metric = "chronology" ∧ c ≥ 85)) := by
  unfold passByMetric
  split
  · rename_i h; simp [h]
  · rename_i h1
    split
    · rename_i h; simp [h, h1]
    · rename_i h2
      split
      · rename_i h; simp [h, h1, h2]
      · rename_i h3
        split
        · rename_i h; simp [h, h1, h2, h3]
        · rename_i h4; simp [h1, h2, h3, h4]

/-! ### JavaScript `Map` model

Association lists with `Map.set` / `Map.get` semantics. The maps built
below never hold duplicate keys (`mapSet` replaces in place), and
`mapGet?` returns `none` exactly where `Map.get` returns `undefined`. -/

/-- `Map.set`: replace an existing binding in place, else append. -/
def mapSet {α : Type} (m : List (String × α)) (k : String) (v : α) : List (String × α) :=
  if m.any (fun p => p.1 = k) then
    m.map (fun p => if p.1 = k then (k, v) else p)
  else m ++ [(k, v)]

/-- `Map.get`: the first binding of the key, if any. -/
def mapGet? {α : Type} (m : List (String × α)) (k : String) : Option α :=
  (m.find? (fun p => p.1 = k)).map Prod.snd

theorem find?_replaceKey_ne {α : Type} (m : List (String × α)) (k k' : String) (v : α)
    (h : k' ≠ k) :
    (m.map (fun p => if p.1 = k then (k, v) else p)).find? (fun p => p.1 = k') =
      m.find? (fun p => p.1 = k') := by
  induction m with
  | nil => rfl
  | cons p m ih =>
    by_cases hp : p.1 = k
    · have h1 : ¬ ((k : String) = k') := fun hh => h hh.symm
      have h2 : ¬ (p.1 = k') := by rw [hp]; exact h1
      simp [List.find?_cons, hp, h1, h2, ih]
    · simp only [List.map_cons, if_neg hp, List.find?_cons]
      by_cases hq : p.1 = k'
      · simp [hq]
      · simp [hq, ih]

theorem find?_replaceKey_self {α : Type} (m : List (String × α)) (k : String) (v : α)
    (h : m.any (fun p => p.1 = k) = true) :
    (m.map (fun p => if p.1 = k then (k, v) else p)).find? (fun p => p.1 = k) =
      some (k, v) := by
  induction m with
  | nil => simp at h
  | cons p m ih =>
    by_cases hp : p.1 = k
    · simp [List.find?_cons, hp]
    · have h' : m.any (fun p => p.1 = k) = true := by
        simp only [List.any_cons, Bool.or_eq_true, decide_eq_true_eq] at h
        rcases h with h | h
        · exact absurd h hp
        · exact h
      simp [List.find?_cons, hp, ih h']

theorem find?_eq_none_of_any_false {α : Type} (m : List (String × α)) (k : String)
    (h : m.any (fun p => p.1 = k) = false) :
    m.find? (fun p => p.1 = k) = none := by
  induction m with
  | nil => rfl
  | cons p m ih =>
    simp only [List.any_cons, Bool.or_eq_false_iff] at h
    simp only [List.find?_cons, h.1]
    exact ih h.2

theorem find?_append_single_self {α : Type} (m : List (String × α)) (k : String) (v : α)
    (h : m.any (fun p => p.1 = k) = false) :
    (m ++ [(k, v)]).find? (fun p => p.1 = k) = some (k, v) := by
  induction m with
  | nil => simp [List.find?_cons]
  | cons p m ih =>
    simp only [List.any_cons, Bool.or_eq_false_iff] at h
    have hp : ¬ (p.1 = k) := by
      intro hh
      simp [hh] at h
    simp only [List.cons_append, List.find?_cons, hp]
    simpa [hp] using ih h.2

theorem find?_append_single_ne {α : Type} (m : List (String × α)) (k k' : String) (v : α)
    (h : k' ≠ k) :
    (m ++ [(k, v)]).find? (fun p => p.1 = k') = m.find? (fun p => p.1 = k') := by
  have hk : ¬ ((k : String) = k') := fun hh => h hh.symm
  induction m with
  | nil => simp [List.find?_cons, hk]
  | cons p m ih =>
    by_cases hq : p.1 = k'
    · simp [List.find?_cons, hq]
    · simp only [List.cons_append, List.find?_cons]
      simp [hq, ih]

theorem mapGet?_mapSet {α : Type} (m : List (String × α)) (k k' : String) (v : α) :
    mapGet? (mapSet m k v) k' = if k' = k then some v else mapGet? m k' := by
  unfold mapSet
  by_cases hm : m.any (fun p => p.1 = k) = true
  · rw [if_pos hm]
    by_cases h : k' = k
    · subst h
      simp [mapGet?, find?_replaceKey_self m k' v hm]
    · simp [mapGet?, find?_replaceKey_ne m k k' v h, h]
  · rw [if_neg hm]
    rw [Bool.not_eq_true] at hm
    by_cases h : k' = k
    · subst h
      simp [mapGet?, find?_append_single_self m k' v hm]
    · simp [mapGet?, find?_append_single_ne m k k' v h, h]

/-! ### Shortest distances (`ForceSimulation.shortestDistances`)

Distance values are `Option ℚ` with `none` standing for the JavaScript
`Infinity` every node is initialised to; a `Map` miss (`undefined`) is
the outer `none` of the `mapGet?` result. -/

/-- The distance map `Map<string, number>`: `none` = `Infinity`. -/
abbrev DistMap : Type := List (String × Option ℚ)

/-- The adjacency map `Map<string, Array<[string, number]>>`. -/
abbrev AdjMap : Type := List (String × List (String × ℚ))

/-- The pending queue `Array<[number, string]>` of Dijkstra's loop. -/
abbrev DijkstraQueue : Type := List (ℚ × String)

/-- The `ForceSimulation` fields the physics reads (`nodes`, `edges`,
`focusNodeId`, `waveFocusId`, `metric`); `nodeById` is derived from
`nodes` and the scheduling fields play no part in a single step. -/
structure ForceSimulation where
  nodes : List SimulationNode
  edges : List Edge
  focusNodeId : String := "oneness"
  waveFocusId : String := ""
  metric : String := "combined"

/-- The body of the adjacency-building loop of `shortestDistances`
(lines 283–295): ensure both endpoints have a bucket, then push the two
directions of the edge with its `edgeWeight`. -/
def addEdgeAdj (metric : String) (adj : AdjMap) (e : Edge) : AdjMap :=
  let w := edgeWeight e metric
  let adj := if (mapGet? adj e.source).isNone then mapSet adj e.source [] else adj
  let adj := if (mapGet? adj e.target).isNone then mapSet adj e.target [] else adj
  let adj := mapSet adj e.source ((mapGet? adj e.source).getD [] ++ [(e.target, w)])
  mapSet adj e.target ((mapGet? adj e.target).getD [] ++ [(e.source, w)])

/-- The adjacency-building loop of `shortestDistances` (lines 283–295):
each edge contributes both directions with its `edgeWeight`. -/
def buildAdjacency (edges : List Edge) (metric : String) : AdjMap :=
  edges.foldl (addEdgeAdj metric) []

/-- JavaScript `newDist < distances.get(u)` where the lookup may be
`undefined` (outer `none`, compares false) or `Infinity` (inner `none`,
compares true). -/
def jsLtGet (a : ℚ) (o : Option (Option ℚ)) : Bool :=
  match o with
  | none => false
  | some none => true
  | some (some q) => decide (a < q)

/-- JavaScript `currentDist > distances.get(v)`: false against both
`undefined` and `Infinity`. -/
def jsGtGet (a : ℚ) (o : Option (Option ℚ)) : Bool :=
  match o with
  | none => false
  | some none => false
  | some (some q) => decide (q < a)

/-- Stable insertion into a queue sorted by tentative distance. -/
def insertQueue (x : ℚ × String) : DijkstraQueue → DijkstraQueue
  | [] => [x]
  | y :: ys => if x.1 < y.1 then x :: y :: ys else y :: insertQueue x ys

/-- The `queue.sort((a, b) => a[0] - b[0])` step: a stable sort by the
first component. -/
def sortQueue (q : DijkstraQueue) : DijkstraQueue :=
  q.foldl (fun acc x => insertQueue x acc) []

/-- One relaxation (lines 319–325): update the neighbor's distance and
push it when the new distance `currentDist + weight` strictly improves;
a neighbor absent from the distance map (a dangling id) never compares
below `undefined` and is skipped. -/
def relaxNeighbor (currentDist : ℚ) (dq : DistMap × DijkstraQueue) (nb : String × ℚ) :
    DistMap × DijkstraQueue :=
  if jsLtGet (currentDist + nb.2) (mapGet? dq.1 nb.1) then
    (mapSet dq.1 nb.1 (some (currentDist + nb.2)), dq.2 ++ [(currentDist + nb.2, nb.1)])
  else dq

/-- The `while` loop of Dijkstra's algorithm (lines 310–326), run on
explicit fuel; every property proved below holds for every fuel value. -/
def dijkstraLoop (adj : AdjMap) : ℕ → DijkstraQueue → DistMap → DistMap
  | 0, _, dist => dist
  | fuel + 1, queue, dist =>
    match sortQueue queue with
    | [] => dist
    | (currentDist, currentNode) :: rest =>
      if jsGtGet currentDist (mapGet? dist currentNode) then
        dijkstraLoop adj fuel rest dist
      else
        let neighbors := (mapGet? adj currentNode).getD []
        let dq := neighbors.foldl (relaxNeighbor currentDist) (dist, rest)
        dijkstraLoop adj fuel dq.2 dq.1

/-- `ForceSimulation.shortestDistances` (lines 278–329): initialise every
node to `Infinity`, return early when the root has no adjacency entry,
else run Dijkstra from the root. -/
def shortestDistances (fuel : ℕ) (sim : ForceSimulation) (rootId : String) : DistMap :=
  let adjacency := buildAdjacency sim.edges sim.metric
  let distances : DistMap := sim.nodes.foldl (fun d n => mapSet d n.id none) []
  if (mapGet? adjacency rootId).isNone then distances
  else
    let distances := mapSet distances rootId (some 0)
    dijkstraLoop adjacency fuel [(0, rootId)] distances

/-! ### Soundness of the adjacency list -/

/-- Two ids are joined by some edge of the buffer (in either direction). -/
def incident (edges : List Edge) (a b : String) : Prop :=
  ∃ e ∈ edges, (e.source = a ∧ e.target = b) ∨ (e.target = a ∧ e.source = b)

/-- Connectivity in the undirected graph of the edge buffer. -/
def Reachable (edges : List Edge) (a b : String) : Prop :=
  Relation.ReflTransGen (incident edges) a b

/-- A neighbor entry `(u, w)` of bucket `v` is justified by some edge. -/
def adjPairOK (metric : String) (E : List Edge) (v : String) (p : String × ℚ) : Prop :=
  ∃ e ∈ E, p.2 = edgeWeight e metric ∧
    ((e.source = v ∧ e.target = p.1) ∨ (e.target = v ∧ e.source = p.1))

/-- Every bucket entry of `adj` is justified by an edge of `E`. -/
def AdjSound (metric : String) (E : List Edge) (adj : AdjMap) : Prop :=
  ∀ v l, mapGet? adj v = some l → ∀ p ∈ l, adjPairOK metric E v p

theorem mapGet?_ensure {adj : AdjMap} {k v : String} {l : List (String × ℚ)}
    (h : mapGet? (if (mapGet? adj k).isNone then mapSet adj k [] else adj) v = some l) :
    mapGet? adj v = some l ∨ l = [] := by
  by_cases hk : (mapGet? adj k).isNone = true
  · rw [if_pos hk, mapGet?_mapSet] at h
    by_cases hv : v = k
    · rw [if_pos hv] at h
      injection h with h'
      exact Or.inr h'.symm
    · rw [if_neg hv] at h
      exact Or.inl h
  · rw [if_neg hk] at h
    exact Or.inl h

theorem ensure_sound {metric : String} {E : List Edge} {adj : AdjMap} {k : String}
    (hadj : AdjSound metric E adj) :
    AdjSound metric E (if (mapGet? adj k).isNone then mapSet adj k [] else adj) := by
  intro v l hget p hp
  rcases mapGet?_ensure hget with h | h
  · exact hadj v l h p hp
  · subst h; simp at hp

theorem pushPair_sound {metric : String} {E : List Edge} {adj : AdjMap} {k : String}
    {pNew : String × ℚ} (hadj : AdjSound metric E adj)
    (hnew : adjPairOK metric E k pNew) :
    AdjSound metric E (mapSet adj k ((mapGet? adj k).getD [] ++ [pNew])) := by
  intro v l hget p hp
  rw [mapGet?_mapSet] at hget
  by_cases hv : v = k
  · rw [if_pos hv] at hget
    injection hget with hget
    subst hget
    rcases List.mem_append.mp hp with hold | hnew'
    · cases hb : mapGet? adj k with
      | none => rw [hb] at hold; simp at hold
      | some l0 =>
        rw [hb] at hold
        exact hv ▸ hadj k l0 hb p (by simpa using hold)
    · have hpe : p = pNew := by simpa using hnew'
      exact hv ▸ (hpe ▸ hnew)
  · rw [if_neg hv] at hget
    exact hadj v l hget p hp

theorem addEdgeAdj_sound {metric : String} {E : List Edge} {adj : AdjMap} {e : Edge}
    (he : e ∈ E) (hadj : AdjSound metric E adj) :
    AdjSound metric E (addEdgeAdj metric adj e) := by
  simp only [addEdgeAdj]
  exact pushPair_sound (pushPair_sound (ensure_sound (ensure_sound hadj))
      ⟨e, he, rfl, Or.inl ⟨rfl, rfl⟩⟩)
    ⟨e, he, rfl, Or.inr ⟨rfl, rfl⟩⟩

theorem foldl_addEdgeAdj_sound {metric : String} {E : List Edge} :
    ∀ (es : List Edge) (adj : AdjMap), (∀ e ∈ es, e ∈ E) → AdjSound metric E adj →
      AdjSound metric E (es.foldl (addEdgeAdj metric) adj) := by
  intro es
  induction es with
  | nil => intro adj _ h; exact h
  | cons e es ih =>
    intro adj hes h
    exact ih _ (fun e' he' => hes e' (List.mem_cons_of_mem e he'))
      (addEdgeAdj_sound (hes e (List.mem_cons_self e es)) h)

theorem buildAdjacency_sound (metric : String) (edges : List Edge) :
    AdjSound metric edges (buildAdjacency edges metric) := by
  refine foldl_addEdgeAdj_sound edges [] (fun _ h => h) ?_
  intro v l h
  simp [mapGet?] at h

/-! The adjacency map has a bucket for an id exactly when some edge of
the buffer touches that id. -/

theorem mapGet?_ensure_isSome {adj : AdjMap} (k v : String) :
    (mapGet? (if (mapGet? adj k).isNone then mapSet adj k [] else adj) v).isSome = true ↔
      (v = k ∨ (mapGet? adj v).isSome = true) := by
  by_cases hk : (mapGet? adj k).isNone = true
  · rw [if_pos hk, mapGet?_mapSet]
    by_cases hv : v = k
    · simp [hv]
    · simp [hv]
  · rw [if_neg hk]
    by_cases hv : v = k
    · subst hv
      simp only [Option.isNone_iff_eq_none] at hk
      constructor
      · intro _; exact Or.inl rfl
      · intro _
        cases ho : mapGet? adj v with
        | none => exact absurd ho hk
        | some l => simp
    · simp [hv]

theorem mapGet?_addEdgeAdj_isSome {metric : String} {adj : AdjMap} {e : Edge} (v : String) :
    (mapGet? (addEdgeAdj metric adj e) v).isSome = true ↔
      (v = e.source ∨ v = e.target ∨ (mapGet? adj v).isSome = true) := by
  simp only [addEdgeAdj, mapGet?_mapSet]
  by_cases hvt : v = e.target
  · simp [hvt]
  · rw [if_neg hvt]
    by_cases hvs : v = e.source
    · simp [hvs]
    · rw [if_neg hvs, mapGet?_ensure_isSome, mapGet?_ensure_isSome]
      simp [hvs, hvt]

theorem foldl_addEdgeAdj_isSome {metric : String} :
    ∀ (es : List Edge) (adj : AdjMap) (v : String),
      (mapGet? (es.foldl (addEdgeAdj metric) adj) v).isSome = true ↔
        ((∃ e ∈ es, e.source = v ∨ e.target = v) ∨ (mapGet? adj v).isSome = true) := by
  intro es
  induction es with
  | nil => intro adj v; simp
  | cons e es ih =>
    intro adj v
    simp only [List.foldl_cons]
    rw [ih]
    rw [mapGet?_addEdgeAdj_isSome]
    constructor
    · rintro (⟨e', he', h⟩ | h | h | h)
      · exact Or.inl ⟨e', List.mem_cons_of_mem e he', h⟩
      · exact Or.inl ⟨e, List.mem_cons_self e es, Or.inl h.symm⟩
      · exact Or.inl ⟨e, List.mem_cons_self e es, Or.inr h.symm⟩
      · exact Or.inr h
    · rintro (⟨e', he', h⟩ | h)
      · rcases List.mem_cons.mp he' with rfl | he'
        · rcases h with h | h
          · exact Or.inr (Or.inl h.symm)
          · exact Or.inr (Or.inr (Or.inl h.symm))
        · exact Or.inl ⟨e', he', h⟩
      · exact Or.inr (Or.inr (Or.inr h))

theorem buildAdjacency_isSome (metric : String) (edges : List Edge) (v : String) :
    (mapGet? (buildAdjacency edges metric) v).isSome = true ↔
      ∃ e ∈ edges, e.source = v ∨ e.target = v := by
  rw [buildAdjacency, foldl_addEdgeAdj_isSome]
  simp [mapGet?]

/-! Queue sorting only permutes the pending entries. -/

theorem mem_insertQueue (x y : ℚ × String) : ∀ l, y ∈ insertQueue x l ↔ y = x ∨ y ∈ l := by
  intro l
  induction l with
  | nil => simp [insertQueue]
  | cons z l ih =>
    by_cases h : x.1 < z.1
    · simp [insertQueue, h]
    · simp only [insertQueue, if_neg h, List.mem_cons, ih]
      tauto

theorem mem_sortQueue_aux (y : ℚ × String) :
    ∀ (l : List (ℚ × String)) (acc : DijkstraQueue),
      y ∈ l.foldl (fun acc x => insertQueue x acc) acc ↔ y ∈ acc ∨ y ∈ l := by
  intro l
  induction l with
  | nil => simp
  | cons x l ih =>
    intro acc
    simp only [List.foldl_cons, ih, mem_insertQueue, List.mem_cons]
    tauto

theorem mem_sortQueue {y : ℚ × String} {q : DijkstraQueue} : y ∈ sortQueue q ↔ y ∈ q := by
  rw [sortQueue, mem_sortQueue_aux]
  simp

/-! Unfolding equations for the loop. -/

theorem dijkstraLoop_succ_nil (adj : AdjMap) (fuel : ℕ) (queue : DijkstraQueue)
    (dist : DistMap) (hsq : sortQueue queue = []) :
    dijkstraLoop adj (fuel + 1) queue dist = dist := by
  rw [dijkstraLoop, hsq]

theorem dijkstraLoop_succ_cons (adj : AdjMap) (fuel : ℕ) (cd : ℚ) (cn : String)
    (rest : DijkstraQueue) (queue : DijkstraQueue) (dist : DistMap)
    (hsq : sortQueue queue = (cd, cn) :: rest) :
    dijkstraLoop adj (fuel + 1) queue dist =
      if jsGtGet cd (mapGet? dist cn) then dijkstraLoop adj fuel rest dist
      else
        dijkstraLoop adj fuel
          (((mapGet? adj cn).getD []).foldl (relaxNeighbor cd) (dist, rest)).2
          (((mapGet? adj cn).getD []).foldl (relaxNeighbor cd) (dist, rest)).1 := by
  rw [dijkstraLoop, hsq]

/-! ### The Dijkstra loop invariant -/

/-- Facts maintained by the relaxation loop when every edge weight is
nonnegative: the root keeps distance `0`, every finite tentative distance
is nonnegative and belongs to a node connected to the root, and every
queued entry is nonnegative and connected to the root. -/
structure DijkstraInv (edges : List Edge) (root : String) (dist : DistMap)
    (queue : DijkstraQueue) : Prop where
  root_zero : mapGet? dist root = some (some 0)
  finite_nonneg : ∀ k q, mapGet? dist k = some (some q) → 0 ≤ q
  finite_reach : ∀ k q, mapGet? dist k = some (some q) → Reachable edges root k
  queue_nonneg : ∀ p ∈ queue, 0 ≤ Prod.fst (α := ℚ) (β := String) p
  queue_reach : ∀ p ∈ queue, Reachable edges root (Prod.snd (α := ℚ) (β := String) p)

theorem relaxNeighbor_inv {edges : List Edge} {root : String} (metric : String)
    (hw : ∀ e ∈ edges, edgeScoresOK e) {v : String} {currentDist : ℚ}
    (hcd : 0 ≤ currentDist) (hv : Reachable edges root v) {nb : String × ℚ}
    (hnbOK : adjPairOK metric edges v nb) {dist : DistMap} {queue : DijkstraQueue}
    (hinv : DijkstraInv edges root dist queue) :
    DijkstraInv edges root (relaxNeighbor currentDist (dist, queue) nb).1
        (relaxNeighbor currentDist (dist, queue) nb).2 ∧
      ∀ k, ¬ Reachable edges root k →
        mapGet? (relaxNeighbor currentDist (dist, queue) nb).1 k = mapGet? dist k := by
  have hw0 : 0 ≤ nb.2 := by
    obtain ⟨e, he, hew, _⟩ := hnbOK
    rw [hew]
    exact edgeWeight_nonneg metric (hw e he)
  have hnd : 0 ≤ currentDist + nb.2 := add_nonneg hcd hw0
  have hreach_nb : Reachable edges root nb.1 := by
    obtain ⟨e, he, _, hc⟩ := hnbOK
    exact Relation.ReflTransGen.tail hv ⟨e, he, hc⟩
  unfold relaxNeighbor
  by_cases hlt : jsLtGet (currentDist + nb.2) (mapGet? dist nb.1) = true
  · rw [if_pos hlt]
    have hnbroot : nb.1 ≠ root := by
      intro hr
      rw [hr, hinv.root_zero] at hlt
      simp only [jsLtGet, decide_eq_true_eq] at hlt
      linarith
    refine ⟨⟨?_, ?_, ?_, ?_, ?_⟩, ?_⟩
    · rw [mapGet?_mapSet, if_neg (fun h => hnbroot h.symm)]
      exact hinv.root_zero
    · intro k q hk
      rw [mapGet?_mapSet] at hk
      by_cases hkn : k = nb.1
      · rw [if_pos hkn] at hk
        injection hk with hk
        injection hk with hk
        rw [← hk]
        exact hnd
      · rw [if_neg hkn] at hk
        exact hinv.finite_nonneg k q hk
    · intro k q hk
      rw [mapGet?_mapSet] at hk
      by_cases hkn : k = nb.1
      · exact hkn ▸ hreach_nb
      · rw [if_neg hkn] at hk
        exact hinv.finite_reach k q hk
    · intro p hp
      rcases List.mem_append.mp hp with hp | hp
      · exact hinv.queue_nonneg p hp
      · have : p = (currentDist + nb.2, nb.1) := by simpa using hp
        rw [this]
        exact hnd
    · intro p hp
      rcases List.mem_append.mp hp with hp | hp
      · exact hinv.queue_reach p hp
      · have : p = (currentDist + nb.2, nb.1) := by simpa using hp
        rw [this]
        exact hreach_nb
    · intro k hk
      rw [mapGet?_mapSet, if_neg (fun h : k = nb.1 => hk (h ▸ hreach_nb))]
  · rw [if_neg hlt]
    exact ⟨hinv, fun _ _ => rfl⟩

theorem relaxFold_inv {edges : List Edge} {root : String} (metric : String)
    (hw : ∀ e ∈ edges, edgeScoresOK e) {v : String} {currentDist : ℚ}
    (hcd : 0 ≤ currentDist) (hv : Reachable edges root v) :
    ∀ (neighbors : List (String × ℚ)), (∀ p ∈ neighbors, adjPairOK metric edges v p) →
    ∀ (dist : DistMap) (queue : DijkstraQueue), DijkstraInv edges root dist queue →
      DijkstraInv edges root (neighbors.foldl (relaxNeighbor currentDist) (dist, queue)).1
          (neighbors.foldl (relaxNeighbor currentDist) (dist, queue)).2 ∧
        ∀ k, ¬ Reachable edges root k →
          mapGet? (neighbors.foldl (relaxNeighbor currentDist) (dist, queue)).1 k =
            mapGet? dist k := by
  intro neighbors
  induction neighbors with
  | nil => exact fun _ dist queue hinv => ⟨hinv, fun _ _ => rfl⟩
  | cons nb nbs ih =>
    intro hnb dist queue hinv
    have step := relaxNeighbor_inv metric hw hcd hv
      (hnb nb (List.mem_cons_self nb nbs)) hinv
    have tailstep := ih (fun p hp => hnb p (List.mem_cons_of_mem nb hp))
      (relaxNeighbor currentDist (dist, queue) nb).1
      (relaxNeighbor currentDist (dist, queue) nb).2 step.1
    simp only [List.foldl_cons]
    exact ⟨tailstep.1, fun k hk => (tailstep.2 k hk).trans (step.2 k hk)⟩

theorem dijkstraLoop_inv {edges : List Edge} {root : String} (metric : String)
    (hw : ∀ e ∈ edges, edgeScoresOK e) :
    ∀ (fuel : ℕ) (queue : DijkstraQueue) (dist : DistMap),
      DijkstraInv edges root dist queue →
      mapGet? (dijkstraLoop (buildAdjacency edges metric) fuel queue dist) root =
          some (some 0) ∧
        (∀ k q, mapGet? (dijkstraLoop (buildAdjacency edges metric) fuel queue dist) k =
            some (some q) → 0 ≤ q ∧ Reachable edges root k) ∧
        (∀ k, ¬ Reachable edges root k →
          mapGet? (dijkstraLoop (buildAdjacency edges metric) fuel queue dist) k =
            mapGet? dist k) := by
  intro fuel
  induction fuel with
  | zero =>
    intro queue dist hinv
    exact ⟨hinv.root_zero,
      fun k q h => ⟨hinv.finite_nonneg k q h, hinv.finite_reach k q h⟩, fun _ _ => rfl⟩
  | succ fuel ih =>
    intro queue dist hinv
    cases hsq : sortQueue queue with
    | nil =>
      rw [dijkstraLoop_succ_nil (buildAdjacency edges metric) fuel queue dist hsq]
      exact ⟨hinv.root_zero,
        fun k q h => ⟨hinv.finite_nonneg k q h, hinv.finite_reach k q h⟩, fun _ _ => rfl⟩
    | cons c rest =>
      obtain ⟨cd, cn⟩ := c
      rw [dijkstraLoop_succ_cons (buildAdjacency edges metric) fuel cd cn rest queue dist hsq]
      have hcq : (cd, cn) ∈ queue := mem_sortQueue.mp (hsq ▸ List.mem_cons_self _ rest)
      have hrest : ∀ p ∈ rest, p ∈ queue :=
        fun p hp => mem_sortQueue.mp (hsq ▸ List.mem_cons_of_mem _ hp)
      have hinv_rest : DijkstraInv edges root dist rest :=
        { hinv with
          queue_nonneg := fun p hp => hinv.queue_nonneg p (hrest p hp)
          queue_reach := fun p hp => hinv.queue_reach p (hrest p hp) }
      by_cases hg : jsGtGet cd (mapGet? dist cn) = true
      · rw [if_pos hg]
        exact ih rest dist hinv_rest
      · rw [if_neg hg]
        have hcd : 0 ≤ cd := hinv.queue_nonneg _ hcq
        have hcr : Reachable edges root cn := hinv.queue_reach _ hcq
        have hnb : ∀ p ∈ (mapGet? (buildAdjacency edges metric) cn).getD [],
            adjPairOK metric edges cn p := by
          cases hb : mapGet? (buildAdjacency edges metric) cn with
          | none => simp
          | some l =>
            intro p hp
            exact buildAdjacency_sound metric edges cn l hb p (by simpa using hp)
        have hfold := relaxFold_inv metric hw hcd hcr _ hnb dist rest hinv_rest
        have tail := ih _ _ hfold.1
        exact ⟨tail.1, tail.2.1, fun k hk => (tail.2.2 k hk).trans (hfold.2 k hk)⟩

/-! The loop never creates a distance entry for an id that has none:
relaxation only fires when the lookup is defined, so dangling ids stay
absent from the distance map. -/

theorem relaxNeighbor_get_none {cd : ℚ} {dq : DistMap × DijkstraQueue} {nb : String × ℚ}
    {k : String} (h : mapGet? dq.1 k = none) :
    mapGet? (relaxNeighbor cd dq nb).1 k = none := by
  unfold relaxNeighbor
  by_cases hlt : jsLtGet (cd + nb.2) (mapGet? dq.1 nb.1) = true
  · rw [if_pos hlt]
    have hne : k ≠ nb.1 := by
      intro hk
      rw [← hk, h] at hlt
      simp [jsLtGet] at hlt
    simpa [mapGet?_mapSet, hne] using h
  · rw [if_neg hlt]
    exact h

theorem relaxFold_get_none {cd : ℚ} {k : String} :
    ∀ (neighbors : List (String × ℚ)) (dq : DistMap × DijkstraQueue),
      mapGet? dq.1 k = none →
      mapGet? (neighbors.foldl (relaxNeighbor cd) dq).1 k = none := by
  intro neighbors
  induction neighbors with
  | nil => exact fun dq h => h
  | cons nb nbs ih =>
    intro dq h
    simp only [List.foldl_cons]
    exact ih _ (relaxNeighbor_get_none h)

theorem dijkstraLoop_get_none (adj : AdjMap) :
    ∀ (fuel : ℕ) (queue : DijkstraQueue) (dist : DistMap) (k : String),
      mapGet? dist k = none → mapGet? (dijkstraLoop adj fuel queue dist) k = none := by
  intro fuel
  induction fuel with
  | zero => exact fun queue dist k h => h
  | succ fuel ih =>
    intro queue dist k h
    cases hsq : sortQueue queue with
    | nil => rw [dijkstraLoop_succ_nil adj fuel queue dist hsq]; exact h
    | cons c rest =>
      obtain ⟨cd, cn⟩ := c
      rw [dijkstraLoop_succ_cons adj fuel cd cn rest queue dist hsq]
      by_cases hg : jsGtGet cd (mapGet? dist cn) = true
      · rw [if_pos hg]
        exact ih rest dist k h
      · rw [if_neg hg]
        exact ih _ _ k (relaxFold_get_none _ _ h)

/-! ### The initial distance map -/

theorem initDist_not_mem :
    ∀ (nodes : List SimulationNode) (m0 : DistMap) (k : String),
      (∀ n ∈ nodes, n.id ≠ k) →
      mapGet? (nodes.foldl (fun d n => mapSet d n.id none) m0) k = mapGet? m0 k := by
  intro nodes
  induction nodes with
  | nil => exact fun m0 k _ => rfl
  | cons n nodes ih =>
    intro m0 k hk
    simp only [List.foldl_cons]
    rw [ih _ k (fun n' h => hk n' (List.mem_cons_of_mem n h)), mapGet?_mapSet,
      if_neg (fun h => hk n (List.mem_cons_self n nodes) h.symm)]

theorem initDist_mem :
    ∀ (nodes : List SimulationNode) (m0 : DistMap) (k : String),
      (∃ n ∈ nodes, n.id = k) →
      mapGet? (nodes.foldl (fun d n => mapSet d n.id none) m0) k = some none := by
  intro nodes
  induction nodes with
  | nil => rintro m0 k ⟨n, hn, _⟩; simp at hn
  | cons n nodes ih =>
    intro m0 k hk
    simp only [List.foldl_cons]
    by_cases hex : ∃ n' ∈ nodes, n'.id = k
    · exact ih _ k hex
    · obtain ⟨n', hn', hid⟩ := hk
      rcases List.mem_cons.mp hn' with rfl | hmem
      · push_neg at hex
        rw [initDist_not_mem nodes _ k hex, mapGet?_mapSet, if_pos hid.symm]
      · exact absurd ⟨n', hmem, hid⟩ hex

theorem initDist_values :
    ∀ (nodes : List SimulationNode) (m0 : DistMap) (k : String) (v : Option ℚ),
      mapGet? (nodes.foldl (fun d n => mapSet d n.id none) m0) k = some v →
      mapGet? m0 k = some v ∨ v = none := by
  intro nodes
  induction nodes with
  | nil => exact fun m0 k v h => Or.inl h
  | cons n nodes ih =>
    intro m0 k v h
    simp only [List.foldl_cons] at h
    rcases ih _ k v h with h' | h'
    · rw [mapGet?_mapSet] at h'
      by_cases hk : k = n.id
      · rw [if_pos hk] at h'
        injection h' with h'
        exact Or.inr h'.symm
      · rw [if_neg hk] at h'
        exact Or.inl h'
    · exact Or.inr h'

/-! ### Facts about `shortestDistances` -/

/-- The state entering the Dijkstra loop satisfies the invariant. -/
theorem initialInv (sim : ForceSimulation) (root : String) :
    DijkstraInv sim.edges root
      (mapSet (sim.nodes.foldl (fun d n => mapSet d n.id none) []) root (some 0))
      [(0, root)] := by
  refine ⟨?_, ?_, ?_, ?_, ?_⟩
  · rw [mapGet?_mapSet, if_pos rfl]
  · intro k q hk
    rw [mapGet?_mapSet] at hk
    by_cases hkr : k = root
    · rw [if_pos hkr] at hk
      injection hk with hk
      injection hk with hk
      rw [← hk]
    · rw [if_neg hkr] at hk
      rcases initDist_values sim.nodes [] k _ hk with h' | h'
      · simp [mapGet?] at h'
      · simp at h'
  · intro k q hk
    rw [mapGet?_mapSet] at hk
    by_cases hkr : k = root
    · exact hkr ▸ Relation.ReflTransGen.refl
    · rw [if_neg hkr] at hk
      rcases initDist_values sim.nodes [] k _ hk with h' | h'
      · simp [mapGet?] at h'
      · simp at h'
  · intro p hp
    have : p = ((0 : ℚ), root) := by simpa using hp
    rw [this]
  · intro p hp
    have : p = ((0 : ℚ), root) := by simpa using hp
    rw [this]
    exact Relation.ReflTransGen.refl

/-- The three behaviours of `shortestDistances`: the root is mapped to
`0` whenever some edge touches it; when no edge touches the root every
node — the root included — is left at `Infinity`; and every node not
connected to the root is left at `Infinity`. -/
theorem shortestDistances_facts (fuel : ℕ) (sim : ForceSimulation) (root : String)
    (hw : ∀ e ∈ sim.edges, edgeScoresOK e) :
    ((∃ e ∈ sim.edges, e.source = root ∨ e.target = root) →
        mapGet? (shortestDistances fuel sim root) root = some (some 0)) ∧
      ((¬ ∃ e ∈ sim.edges, e.source = root ∨ e.target = root) →
        ∀ n ∈ sim.nodes, mapGet? (shortestDistances fuel sim root) n.id = some none) ∧
      (∀ n ∈ sim.nodes, ¬ Reachable sim.edges root n.id →
        mapGet? (shortestDistances fuel sim root) n.id = some none) := by
  unfold shortestDistances
  by_cases hno : (mapGet? (buildAdjacency sim.edges sim.metric) root).isNone = true
  · rw [if_pos hno]
    have hnoinc : ¬ ∃ e ∈ sim.edges, e.source = root ∨ e.target = root := by
      intro hex
      have := (buildAdjacency_isSome sim.metric sim.edges root).mpr hex
      rw [Option.isNone_iff_eq_none] at hno
      rw [hno] at this
      simp at this
    refine ⟨fun hex => absurd hex hnoinc, fun _ n hn => ?_, fun n hn _ => ?_⟩
    · exact initDist_mem sim.nodes [] n.id ⟨n, hn, rfl⟩
    · exact initDist_mem sim.nodes [] n.id ⟨n, hn, rfl⟩
  · rw [if_neg hno]
    have hinv := initialInv sim root
    have hloop := dijkstraLoop_inv sim.metric hw fuel [(0, root)] _ hinv
    refine ⟨fun _ => hloop.1, fun hnoinc => ?_, fun n hn hreach => ?_⟩
    · exfalso
      rw [Option.isNone_iff_eq_none] at hno
      cases hadj : mapGet? (buildAdjacency sim.edges sim.metric) root with
      | none => exact hno hadj
      | some l =>
        exact hnoinc ((buildAdjacency_isSome sim.metric sim.edges root).mp (by simp [hadj]))
    · have hnr : n.id ≠ root := by
        intro h
        exact hreach (h ▸ Relation.ReflTransGen.refl)
      rw [hloop.2.2 n.id hreach, mapGet?_mapSet, if_neg hnr]
      exact initDist_mem sim.nodes [] n.id ⟨n, hn, rfl⟩

/-- With well-scored edges every finite shortest-path distance is
nonnegative. -/
theorem shortestDistances_nonneg (fuel : ℕ) (sim : ForceSimulation) (root : String)
    (hw : ∀ e ∈ sim.edges, edgeScoresOK e) (k : String) (q : ℚ)
    (h : mapGet? (shortestDistances fuel sim root) k = some (some q)) : 0 ≤ q := by
  unfold shortestDistances at h
  by_cases hno : (mapGet? (buildAdjacency sim.edges sim.metric) root).isNone = true
  · rw [if_pos hno] at h
    rcases initDist_values sim.nodes [] k _ h with h' | h'
    · simp [mapGet?] at h'
    · simp at h'
  · rw [if_neg hno] at h
    have hinv := initialInv sim root
    exact ((dijkstraLoop_inv sim.metric hw fuel [(0, root)] _ hinv).2.1 k q h).1

/-- An id that belongs to no node of the buffer and is not the root never
acquires a distance entry: lookups on it give `undefined` throughout. -/
theorem shortestDistances_get_none (fuel : ℕ) (sim : ForceSimulation) (root k : String)
    (hk : ∀ n ∈ sim.nodes, n.id ≠ k) (hkr : k ≠ root) :
    mapGet? (shortestDistances fuel sim root) k = none := by
  unfold shortestDistances
  by_cases hno : (mapGet? (buildAdjacency sim.edges sim.metric) root).isNone = true
  · rw [if_pos hno, initDist_not_mem sim.nodes [] k hk]
    rfl
  · rw [if_neg hno]
    refine dijkstraLoop_get_none _ fuel _ _ k ?_
    rw [mapGet?_mapSet, if_neg hkr, initDist_not_mem sim.nodes [] k hk]
    rfl

/-! ### The physics passes of `ForceSimulation.simulationStep`

Positions and velocities are ideal reals. Each block of the source loop
becomes one pass over the node buffer; in-place mutation through the
`nodeById` aliases becomes update-by-id, and the sequentially mutating
repulsion double loop becomes a fold over the ordered index pairs. -/

/-- JavaScript `a || b` on nonnegative numbers: `a` unless it is `0`. -/
noncomputable def jsOr (a b : ℝ) : ℝ := if a = 0 then b else a

/-- JavaScript `Math.atan2`, pieced together from `Real.arctan`
(`atan2 0 0 = 0`, as in JavaScript for positive zeroes). -/
noncomputable def atan2 (y x : ℝ) : ℝ :=
  if 0 < x then Real.arctan (y / x)
  else if x < 0 then
    (if 0 ≤ y then Real.arctan (y / x) + Real.pi else Real.arctan (y / x) - Real.pi)
  else if 0 < y then Real.pi / 2
  else if y < 0 then -(Real.pi / 2)
  else 0

/-- `this.nodeById.get(i)`: the map built by `setData` keeps, for each
id, the last node carrying it (JavaScript `Map` override semantics). -/
def nodeById? (ns : List SimulationNode) (i : String) : Option SimulationNode :=
  (ns.filter (fun n => n.id = i)).getLast?

/-- Natural length of the spring of an edge type (lines 367–387). -/
noncomputable def springBaseLength (t : String) : ℝ :=
  if t = "lineage" then 110
  else if t = "cross" then 160
  else if t = "wave" then 250
  else if t = "archetype" then 280
  else 140

/-- Stiffness of the spring of an edge type (lines 367–387). -/
noncomputable def springStrengthOf (t : String) : ℝ :=
  if t = "lineage" then 0.05
  else if t = "cross" then 0.01
  else if t = "wave" then 0.008
  else if t = "archetype" then 0.005
  else 0.03

/-- The spring force of one edge (lines 351–399): skip the edge when an
endpoint id resolves to no node; otherwise push both endpoints' velocity
along the unit direction, with the `×2.3` boost for edges touching the
wave focus. -/
noncomputable def springEdge (waveFocusId : String) (ns : List SimulationNode) (e : Edge) :
    List SimulationNode :=
  match nodeById? ns e.source, nodeById? ns e.target with
  | some sourceNode, some targetNode =>
    let dx := targetNode.x - sourceNode.x
    let dy := targetNode.y - sourceNode.y
    let distance := jsOr (Real.sqrt (dx * dx + dy * dy)) 1e-6
    let nx := dx / distance
    let ny := dy / distance
    let springStrength :=
      if waveFocusId ≠ "" ∧ (e.source = waveFocusId ∨ e.target = waveFocusId) then
        springStrengthOf e.type * 2.3
      else springStrengthOf e.type
    let force := (distance - springBaseLength e.type) * springStrength
    let ns := ns.map (fun n =>
      if n.id = e.source then { n with vx := n.vx + force * nx, vy := n.vy + force * ny }
      else n)
    ns.map (fun n =>
      if n.id = e.target then { n with vx := n.vx - force * nx, vy := n.vy - force * ny }
      else n)
  | _, _ => ns

/-- The whole spring pass: fold `springEdge` over the edge buffer. -/
noncomputable def springPass (waveFocusId : String) (edges : List Edge)
    (ns : List SimulationNode) : List SimulationNode :=
  edges.foldl (springEdge waveFocusId) ns

/-- `getWaveNeighbors` (lines 331–339): ids joined to `nodeId` by a wave
edge. -/
def getWaveNeighbors (edges : List Edge) (nodeId : String) : List String :=
  edges.foldl
    (fun neighbors e =>
      if e.type ≠ "wave" then neighbors
      else
        let neighbors := if e.source = nodeId then neighbors ++ [e.target] else neighbors
        if e.target = nodeId then neighbors ++ [e.source] else neighbors)
    []

/-- `maxDistance` (lines 345–346): the largest finite distance value, or
`1` when every node is at `Infinity`. -/
def maxFiniteDistance (dist : DistMap) : ℚ :=
  match (dist.map Prod.snd).filterMap id with
  | [] => 1
  | h :: t => t.foldl max h

/-- `distances.get(node.id) || Infinity` (line 403): an `undefined`
lookup, a stored `Infinity` and a stored `0` (zero is falsy!) all come
out as `Infinity`. -/
def jsOrInfinity (o : Option (Option ℚ)) : Option ℚ :=
  match o with
  | none => none
  | some none => none
  | some (some q) => if q = 0 then none else some q

/-- The gravity target radius of one node (lines 403–411):
`80 + 620·normalizedDistance`, where an infinite lookup normalises to
`1`, shrunk `×0.55` for the wave focus and its wave neighbors. -/
noncomputable def gravityTargetRadius (waveFocusId : String) (waveNeighbors : List String)
    (distances : DistMap) (maxDistance : ℚ) (n : SimulationNode) : ℝ :=
  let distance := jsOrInfinity (mapGet? distances n.id)
  let normalizedDistance : ℝ :=
    match distance with
    | none => 1
    | some q => (q : ℝ) / (maxDistance : ℝ)
  let targetRadius : ℝ := 80 + 620 * normalizedDistance
  if waveFocusId ≠ "" ∧ (n.id ∈ waveNeighbors ∨ n.id = waveFocusId) then targetRadius * 0.55
  else targetRadius

/-- The radial-gravity nudge of one node (lines 402–420). -/
noncomputable def gravityNode (waveFocusId : String) (waveNeighbors : List String)
    (distances : DistMap) (maxDistance : ℚ) (n : SimulationNode) : SimulationNode :=
  let targetRadius := gravityTargetRadius waveFocusId waveNeighbors distances maxDistance n
  let angle := atan2 n.y n.x
  let targetX := Real.cos angle * targetRadius
  let targetY := Real.sin angle * targetRadius
  let gravityStrength : ℝ := if waveFocusId ≠ "" then 0.03 else 0.02
  { n with vx := n.vx + (targetX - n.x) * gravityStrength,
           vy := n.vy + (targetY - n.y) * gravityStrength }

/-- The radial-gravity pass maps `gravityNode` over the buffer. -/
noncomputable def gravityPass (waveFocusId : String) (waveNeighbors : List String)
    (distances : DistMap) (maxDistance : ℚ) (ns : List SimulationNode) :
    List SimulationNode :=
  ns.map (gravityNode waveFocusId waveNeighbors distances maxDistance)

/-- Focus pinning (lines 422–429): the effective focus node is forced to
the origin with zero velocity. -/
noncomputable def pinPass (focusId : String) (ns : List SimulationNode) :
    List SimulationNode :=
  ns.map (fun n =>
    if n.id = focusId then { n with x := 0, y := 0, vx := 0, vy := 0 } else n)

/-- Special "oneness" positioning (lines 431–443): parked at `(−300, 0)`
unless it is itself the effective focus, always with zero velocity. -/
noncomputable def onenessPass (focusId : String) (ns : List SimulationNode) :
    List SimulationNode :=
  ns.map (fun n =>
    if n.id = "oneness" then
      if focusId ≠ "oneness" then { n with x := -300, y := 0, vx := 0, vy := 0 }
      else { n with x := 0, y := 0, vx := 0, vy := 0 }
    else n)

/-- Collision radius of a node: `15 + min(110, labelLength·3.0)`. -/
noncomputable def collisionRadius (n : SimulationNode) : ℝ :=
  15 + min 110 ((n.label.length : ℝ) * 3.0)

/-- Repulsion and collision of one unordered pair (lines 446–494):
coincident nodes get a fixed `0.5` velocity nudge; otherwise an inverse
square-ish velocity repulsion, plus a direct positional separation when
the collision radii overlap. -/
noncomputable def repulsionStep (nodeA nodeB : SimulationNode) :
    SimulationNode × SimulationNode :=
  let dx := nodeB.x - nodeA.x
  let dy := nodeB.y - nodeA.y
  let distanceSquared := dx * dx + dy * dy
  if distanceSquared = 0 then
    ({ nodeA with vx := nodeA.vx - 0.5, vy := nodeA.vy - 0.5 },
     { nodeB with vx := nodeB.vx + 0.5, vy := nodeB.vy + 0.5 })
  else
    let distance := Real.sqrt distanceSquared
    let repulsionBase : ℝ :=
      if nodeA.kind = "archetype" ∨ nodeA.kind = "wave" ∨
          nodeB.kind = "archetype" ∨ nodeB.kind = "wave" then 3200
      else 1600
    let repulsion := repulsionBase / (distanceSquared + 10)
    let rx := repulsion * dx / distance
    let ry := repulsion * dy / distance
    let nodeA := { nodeA with vx := nodeA.vx - rx, vy := nodeA.vy - ry }
    let nodeB := { nodeB with vx := nodeB.vx + rx, vy := nodeB.vy + ry }
    let minDistance := collisionRadius nodeA + collisionRadius nodeB
    if distance < minDistance then
      let pushForce := (minDistance - distance) * 0.05
      let px := pushForce * dx / distance
      let py := pushForce * dy / distance
      ({ nodeA with x := nodeA.x - px, y := nodeA.y - py },
       { nodeB with x := nodeB.x + px, y := nodeB.y + py })
    else (nodeA, nodeB)

/-- The ordered index pairs `(i, j)` with `i < j` visited by the nested
repulsion loops. -/
def pairIndices (n : ℕ) : List (ℕ × ℕ) :=
  (List.range n).flatMap (fun i => ((List.range n).filter (fun j => i < j)).map (fun j => (i, j)))

/-- The repulsion/collision pass: the pairs are processed sequentially,
each reading the positions already moved by earlier pairs, exactly like
the mutating double loop of the source. -/
noncomputable def repulsionPass (ns : List SimulationNode) : List SimulationNode :=
  (pairIndices ns.length).foldl
    (fun acc ij =>
      match acc.get? ij.1, acc.get? ij.2 with
      | some a, some b =>
        let ab := repulsionStep a b
        (acc.set ij.1 ab.1).set ij.2 ab.2
      | _, _ => acc)
    ns

/-- Damped integration (lines 498–503): `v ×= 0.86`, then `p += v`. -/
noncomputable def integratePass (ns : List SimulationNode) : List SimulationNode :=
  ns.map (fun n =>
    let vx := n.vx * 0.86
    let vy := n.vy * 0.86
    { n with vx := vx, vy := vy, x := n.x + vx, y := n.y + vy })

/-- `this.waveFocusId || this.focusNodeId` (line 343): the wave focus
when nonempty, else the primary focus. -/
def effectiveFocus (sim : ForceSimulation) : String :=
  if sim.waveFocusId = "" then sim.focusNodeId else sim.waveFocusId

/-- `ForceSimulation.simulationStep` (lines 342–504): one tick — spring
forces, radial gravity, focus pinning, "oneness" parking, pairwise
repulsion/collision, damped integration. -/
noncomputable def simulationStep (fuel : ℕ) (sim : ForceSimulation) : ForceSimulation :=
  let focusId := effectiveFocus sim
  let distances := shortestDistances fuel sim focusId
  let maxDistance := maxFiniteDistance distances
  let waveNeighbors :=
    if sim.waveFocusId = "" then [] else getWaveNeighbors sim.edges sim.waveFocusId
  let ns := springPass sim.waveFocusId sim.edges sim.nodes
  let ns := gravityPass sim.waveFocusId waveNeighbors distances maxDistance ns
  let ns := pinPass focusId ns
  let ns := onenessPass focusId ns
  let ns := repulsionPass ns
  let ns := integratePass ns
  { sim with nodes := ns }

/-- `randomPosition(min, max)` (lines 274–276) at a sample `r` of
`Math.random()`. -/
noncomputable def randomPosition (r mn mx : ℝ) : ℝ := mn + r * (mx - mn)

/-- `ForceSimulation.setData` (lines 246–259): rebuild the buffers from
fresh nodes, re-randomising positions into `(−150, 150)` and zeroing
velocities; each node consumes two samples of the random stream. -/
noncomputable def setData (rand : ℕ → ℝ) (sim : ForceSimulation) (nodes : List Node)
    (edges : List Edge) : ForceSimulation :=
  { sim with
    nodes := nodes.enum.map (fun p =>
      { toNode := p.2,
        x := randomPosition (rand (2 * p.1)) (-150) 150,
        y := randomPosition (rand (2 * p.1 + 1)) (-150) 150,
        vx := 0,
        vy := 0 }),
    edges := edges }

/-! ### C7 — `setData` bounds -/

/-- **C7** — Immediately after `setData`, every simulation node sits
within `[−150, 150]` on both axes with velocity exactly `(0, 0)`. -/
theorem setData_position_bounds (rand : ℕ → ℝ) (hr : ∀ i, 0 ≤ rand i ∧ rand i < 1)
    (sim : ForceSimulation) (nodes : List Node) (edges : List Edge) (k : ℕ)
    (n : SimulationNode) (hn : (setData rand sim nodes edges).nodes.get? k = some n) :
    -150 ≤ n.x ∧ n.x ≤ 150 ∧ -150 ≤ n.y ∧ n.y ≤ 150 ∧ n.vx = 0 ∧ n.vy = 0 := by
  have hmem : n ∈ (setData rand sim nodes edges).nodes := List.get?_mem hn
  simp only [setData, List.mem_map] at hmem
  obtain ⟨p, _, hp⟩ := hmem
  have hx := hr (2 * p.1)
  have hy := hr (2 * p.1 + 1)
  rw [← hp]
  simp only [randomPosition]
  refine ⟨by linarith [hx.1], by linarith [hx.2], by linarith [hy.1], by linarith [hy.2],
    ?_, ?_⟩ <;> trivial

/-- A constant one-half random stream. -/
noncomputable def halfStream : ℕ → ℝ := fun _ => 1 / 2

/-- A concrete node for witnesses. -/
def nodeN : Node := { id := "n", label := "", group := "g", kind := "religion", layer := 0 }

/-- An empty simulation for witnesses. -/
def emptySim : ForceSimulation := { nodes := [], edges := [] }

/-- The simulation node `setData` builds from `nodeN` under the constant
one-half stream. -/
noncomputable def halfNode : SimulationNode :=
  { toNode := nodeN, x := randomPosition (halfStream 0) (-150) 150,
    y := randomPosition (halfStream 1) (-150) 150, vx := 0, vy := 0 }

/-- Witness for `setData_position_bounds` on a concrete one-node call. -/
theorem setData_position_bounds_witness :
    -150 ≤ halfNode.x ∧ halfNode.x ≤ 150 ∧ -150 ≤ halfNode.y ∧ halfNode.y ≤ 150 ∧
      halfNode.vx = 0 ∧ halfNode.vy = 0 :=
  setData_position_bounds halfStream
    (fun i => by constructor <;> norm_num [halfStream]) emptySim [nodeN] [] 0 halfNode rfl

/-! ### C10 — a zero distance is treated as unreachable -/

/-- **C10** — In the radial-gravity pass, a node whose stored shortest
distance is exactly `0` is treated as unreachable: `0` is falsy, so
`distances.get(id) || Infinity` yields `Infinity`, the normalised
distance becomes `1` and the target radius is the outer-ring value
`80 + 620 = 700` (times `0.55` under a wave focus), never the inner
radius `80`. -/
theorem gravity_zero_distance_outer_ring (waveFocusId : String)
    (waveNeighbors : List String) (distances : DistMap) (maxDistance : ℚ)
    (n : SimulationNode) (h : mapGet? distances n.id = some (some 0)) :
    gravityTargetRadius waveFocusId waveNeighbors distances maxDistance n =
        (if waveFocusId ≠ "" ∧ (n.id ∈ waveNeighbors ∨ n.id = waveFocusId) then
          (700 : ℝ) * 0.55 else 700) ∧
      gravityTargetRadius waveFocusId waveNeighbors distances maxDistance n ≠ 80 := by
  have hbase : gravityTargetRadius waveFocusId waveNeighbors distances maxDistance n =
      (if waveFocusId ≠ "" ∧ (n.id ∈ waveNeighbors ∨ n.id = waveFocusId) then
        (700 : ℝ) * 0.55 else 700) := by
    unfold gravityTargetRadius
    rw [h]
    simp only [jsOrInfinity, if_pos rfl]
    norm_num
  refine ⟨hbase, ?_⟩
  rw [hbase]
  split
  · norm_num
  · norm_num

/-- A simulation node carrying id `"a"` at the origin. -/
noncomputable def simNodeA0 : SimulationNode :=
  { id := "a", label := "", group := "g", kind := "religion", layer := 0,
    x := 0, y := 0, vx := 0, vy := 0 }

/-- Witness for `gravity_zero_distance_outer_ring`: with the distance
map `{a ↦ 0}` and no wave focus the target radius is `700`. -/
theorem gravity_zero_distance_outer_ring_witness :
    gravityTargetRadius "" [] [("a", some 0)] 1 simNodeA0 =
        (if ("" : String) ≠ "" ∧ (simNodeA0.id ∈ ([] : List String) ∨ simNodeA0.id = "") then
          (700 : ℝ) * 0.55 else 700) ∧
      gravityTargetRadius "" [] [("a", some 0)] 1 simNodeA0 ≠ 80 :=
  gravity_zero_distance_outer_ring "" [] [("a", some 0)] 1 simNodeA0 rfl

/-! ### C1 — the focus pin -/

/-- **C1 (amended)** — At the pin stage of the tick (after the spring and
gravity passes, before repulsion/collision and integration) every node
carrying the effective focus id sits at the origin with zero velocity.
The subsequent repulsion/collision pass and damped integration can move
it off the origin again within the same tick
(`simulationStep_moves_pinned_focus`). -/
theorem pin_phase_focus_at_origin (focusId : String) (ns : List SimulationNode) (k : ℕ)
    (n : SimulationNode) (hn : (onenessPass focusId (pinPass focusId ns)).get? k = some n)
    (hid : n.id = focusId) : n.x = 0 ∧ n.y = 0 ∧ n.vx = 0 ∧ n.vy = 0 := by
  simp only [onenessPass, pinPass, List.map_map, List.get?_map] at hn
  cases hm : ns.get? k with
  | none => rw [hm] at hn; simp at hn
  | some m =>
    rw [hm] at hn
    simp only [Option.map_some', Option.some.injEq, Function.comp_apply] at hn
    by_cases hmf : m.id = focusId
    · rw [if_pos hmf] at hn
      by_cases ho : focusId = "oneness"
      · have hmo : ({ m with x := 0, y := 0, vx := 0, vy := 0 } : SimulationNode).id =
            "oneness" := by
          show m.id = "oneness"
          rw [hmf, ho]
        rw [if_pos hmo, if_neg (fun hne : focusId ≠ "oneness" => hne ho)] at hn
        rw [← hn]
        exact ⟨rfl, rfl, rfl, rfl⟩
      · have : ({ m with x := 0, y := 0, vx := 0, vy := 0 } : SimulationNode).id = m.id := rfl
        rw [if_neg (show ¬ ({ m with x := 0, y := 0, vx := 0, vy := 0 } :
            SimulationNode).id = "oneness" from by rw [this, hmf]; exact ho)] at hn
        rw [← hn]
        exact ⟨rfl, rfl, rfl, rfl⟩
    · rw [if_neg hmf] at hn
      by_cases hmo : m.id = "oneness"
      · rw [if_pos hmo] at hn
        by_cases hfo : focusId ≠ "oneness"
        · rw [if_pos hfo] at hn
          have : n.id = m.id := by rw [← hn]
          rw [hid, hmo] at this
          exact absurd this hfo
        · push_neg at hfo
          rw [hfo] at hmf
          exact absurd hmo hmf
      · rw [if_neg hmo] at hn
        rw [← hn] at hid
        exact absurd hid hmf

/-- A focus node at the origin. -/
noncomputable def simNodeF : SimulationNode :=
  { id := "f", label := "", group := "g", kind := "religion", layer := 0,
    x := 0, y := 0, vx := 0, vy := 0 }

/-- Witness for `pin_phase_focus_at_origin` on a concrete buffer. -/
theorem pin_phase_focus_at_origin_witness :
    simNodeF.x = 0 ∧ simNodeF.y = 0 ∧ simNodeF.vx = 0 ∧ simNodeF.vy = 0 :=
  pin_phase_focus_at_origin "f" [simNodeF] 0 simNodeF rfl rfl

/-! ### C9 — a tick only mutates the physics fields -/

theorem map_toNode_comp (f : SimulationNode → SimulationNode)
    (hf : ∀ n, (f n).toNode = n.toNode) :
    ∀ ns : List SimulationNode,
      (ns.map f).map SimulationNode.toNode = ns.map SimulationNode.toNode := by
  intro ns
  induction ns with
  | nil => rfl
  | cons n ns ih => simp [hf, ih]

theorem springEdge_toNode (waveFocusId : String) (ns : List SimulationNode) (e : Edge) :
    (springEdge waveFocusId ns e).map SimulationNode.toNode =
      ns.map SimulationNode.toNode := by
  unfold springEdge
  cases hs : nodeById? ns e.source with
  | none => rfl
  | some s =>
    cases ht : nodeById? ns e.target with
    | none => rfl
    | some t =>
      rw [map_toNode_comp _ (fun n => by split <;> rfl),
        map_toNode_comp _ (fun n => by split <;> rfl)]

theorem springPass_toNode (waveFocusId : String) :
    ∀ (edges : List Edge) (ns : List SimulationNode),
      (springPass waveFocusId edges ns).map SimulationNode.toNode =
        ns.map SimulationNode.toNode := by
  intro edges
  induction edges with
  | nil => exact fun ns => rfl
  | cons e es ih =>
    intro ns
    rw [springPass, List.foldl_cons, ← springPass]
    rw [ih (springEdge waveFocusId ns e), springEdge_toNode]

theorem gravityPass_toNode (waveFocusId : String) (waveNeighbors : List String)
    (distances : DistMap) (maxDistance : ℚ) (ns : List SimulationNode) :
    (gravityPass waveFocusId waveNeighbors distances maxDistance ns).map
        SimulationNode.toNode = ns.map SimulationNode.toNode := by
  unfold gravityPass
  exact map_toNode_comp (gravityNode waveFocusId waveNeighbors distances maxDistance)
    (fun n => rfl) ns

theorem pinPass_toNode (focusId : String) (ns : List SimulationNode) :
    (pinPass focusId ns).map SimulationNode.toNode = ns.map SimulationNode.toNode := by
  unfold pinPass
  exact map_toNode_comp _ (fun n => by split <;> rfl) ns

theorem onenessPass_toNode (focusId : String) (ns : List SimulationNode) :
    (onenessPass focusId ns).map SimulationNode.toNode = ns.map SimulationNode.toNode := by
  unfold onenessPass
  exact map_toNode_comp _ (fun n => by split_ifs <;> rfl) ns

theorem integratePass_toNode (ns : List SimulationNode) :
    (integratePass ns).map SimulationNode.toNode = ns.map SimulationNode.toNode := by
  unfold integratePass
  refine map_toNode_comp _ (fun n => ?_) ns
  rfl

theorem repulsionStep_toNode (a b : SimulationNode) :
    (repulsionStep a b).1.toNode = a.toNode ∧ (repulsionStep a b).2.toNode = b.toNode := by
  unfold repulsionStep
  dsimp only
  split_ifs <;> exact ⟨rfl, rfl⟩

theorem set_get?_self {α : Type} : ∀ (l : List α) (n : ℕ) (x : α),
    l.get? n = some x → l.set n x = l := by
  intro l
  induction l with
  | nil => intro n x h; simp at h
  | cons a l ih =>
    intro n x h
    cases n with
    | zero =>
      simp only [List.get?] at h
      injection h with h
      rw [List.set, h]
    | succ n =>
      simp only [List.get?] at h
      rw [List.set, ih n x h]

theorem repulsionPass_toNode (ns : List SimulationNode) :
    (repulsionPass ns).map SimulationNode.toNode = ns.map SimulationNode.toNode := by
  unfold repulsionPass
  generalize pairIndices ns.length = pairs
  induction pairs generalizing ns with
  | nil => rfl
  | cons ij pairs ih =>
    rw [List.foldl_cons]
    cases ha : ns.get? ij.1 with
    | none =>
      cases hb : ns.get? ij.2 with
      | none => exact ih ns
      | some b => exact ih ns
    | some a =>
      cases hb : ns.get? ij.2 with
      | none => exact ih ns
      | some b =>
        refine ((ih _).trans ?_)
        rw [List.map_set, List.map_set]
        have h1 : (ns.map SimulationNode.toNode).set ij.1 (repulsionStep a b).1.toNode =
            ns.map SimulationNode.toNode := by
          refine set_get?_self _ _ _ ?_
          rw [List.get?_map, ha, (repulsionStep_toNode a b).1]
          rfl
        have h2 : ((ns.map SimulationNode.toNode).set ij.1
              (repulsionStep a b).1.toNode).set ij.2 (repulsionStep a b).2.toNode =
            (ns.map SimulationNode.toNode).set ij.1 (repulsionStep a b).1.toNode := by
          refine set_get?_self _ _ _ ?_
          rw [h1, List.get?_map, hb, (repulsionStep_toNode a b).2]
          rfl
        rw [h2, h1]

/-- One tick keeps the underlying `Node` of every buffer entry. -/
theorem simulationStep_nodes_toNode (fuel : ℕ) (sim : ForceSimulation) :
    (simulationStep fuel sim).nodes.map SimulationNode.toNode =
      sim.nodes.map SimulationNode.toNode := by
  show (integratePass _).map _ = _
  rw [integratePass_toNode, repulsionPass_toNode, onenessPass_toNode, pinPass_toNode,
    gravityPass_toNode, springPass_toNode]

/-- **C9** — Any number of ticks mutates only the physics fields: the
underlying `Node` data (id, label, kind, group, layer) of every buffer
entry, the membership and order of the node buffer, the edge buffer and
the focus/metric configuration are all unchanged. -/
theorem simulationStep_frame (fuel k : ℕ) (sim : ForceSimulation) :
    ((fun s => simulationStep fuel s)^[k] sim).nodes.map SimulationNode.toNode =
        sim.nodes.map SimulationNode.toNode ∧
      ((fun s => simulationStep fuel s)^[k] sim).edges = sim.edges ∧
      ((fun s => simulationStep fuel s)^[k] sim).focusNodeId = sim.focusNodeId ∧
      ((fun s => simulationStep fuel s)^[k] sim).waveFocusId = sim.waveFocusId ∧
      ((fun s => simulationStep fuel s)^[k] sim).metric = sim.metric := by
  induction k with
  | zero => exact ⟨rfl, rfl, rfl, rfl, rfl⟩
  | succ k ih =>
    rw [Function.iterate_succ_apply']
    obtain ⟨h1, h2, h3, h4, h5⟩ := ih
    exact ⟨(simulationStep_nodes_toNode fuel _).trans h1, h2, h3, h4, h5⟩

/-! ### C1 — the pin does not survive the repulsion and integration -/

/-- The node buffer of a tick, written as the pass pipeline. -/
theorem simulationStep_nodes (fuel : ℕ) (sim : ForceSimulation) :
    (simulationStep fuel sim).nodes =
      integratePass (repulsionPass (onenessPass (effectiveFocus sim)
        (pinPass (effectiveFocus sim)
          (gravityPass sim.waveFocusId
            (if sim.waveFocusId = "" then [] else getWaveNeighbors sim.edges sim.waveFocusId)
            (shortestDistances fuel sim (effectiveFocus sim))
            (maxFiniteDistance (shortestDistances fuel sim (effectiveFocus sim)))
            (springPass sim.waveFocusId sim.edges sim.nodes))))) := rfl

/-- A second node, ten units to the right of the focus. -/
noncomputable def simNodeB10 : SimulationNode :=
  { id := "b", label := "", group := "g", kind := "religion", layer := 0,
    x := 10, y := 0, vx := 0, vy := 0 }

/-- A two-node, edge-free state focused on `"f"`. -/
noncomputable def twoNodeSim : ForceSimulation :=
  { nodes := [simNodeF, simNodeB10], edges := [], focusNodeId := "f",
    waveFocusId := "", metric := "combined" }

theorem sqrt_onehundred : Real.sqrt 100 = 10 := by
  rw [show (100 : ℝ) = 10 ^ 2 by norm_num]
  exact Real.sqrt_sq (by norm_num)

/-- **C1 (counterexample)** — One tick of the two-node state moves the
effective focus node off the origin: the pin (lines 422–429) runs before
the repulsion/collision pass, whose velocity kick survives the damped
integration, so at the end of the tick the focus node's `x` is nonzero. -/
theorem simulationStep_moves_pinned_focus :
    ∃ n : SimulationNode, (simulationStep 0 twoNodeSim).nodes.get? 0 = some n ∧
      n.id = "f" ∧ n.x ≠ 0 := by
  have hdl : shortestDistances 0 twoNodeSim "f" = [("f", none), ("b", none)] := rfl
  have hangF : atan2 simNodeF.y simNodeF.x = 0 := by
    show atan2 0 0 = 0
    unfold atan2
    norm_num
  have hangB : atan2 simNodeB10.y simNodeB10.x = 0 := by
    show atan2 0 10 = 0
    unfold atan2
    rw [if_pos (by norm_num : (0 : ℝ) < 10)]
    norm_num [Real.arctan_zero]
  have hrF : gravityTargetRadius "" [] [("f", none), ("b", none)] 1 simNodeF = 700 := by
    unfold gravityTargetRadius
    rw [show mapGet? [("f", (none : Option ℚ)), ("b", none)] simNodeF.id = some none from rfl]
    norm_num [jsOrInfinity]
  have hrB : gravityTargetRadius "" [] [("f", none), ("b", none)] 1 simNodeB10 = 700 := by
    unfold gravityTargetRadius
    rw [show mapGet? [("f", (none : Option ℚ)), ("b", none)] simNodeB10.id = some none from
      rfl]
    norm_num [jsOrInfinity]
  have hgF : gravityNode "" [] [("f", none), ("b", none)] 1 simNodeF =
      ⟨simNodeF.toNode, 0, 0, 14, 0⟩ := by
    unfold gravityNode
    rw [hrF, hangF]
    dsimp only
    norm_num [Real.cos_zero, Real.sin_zero, simNodeF]
  have hgB : gravityNode "" [] [("f", none), ("b", none)] 1 simNodeB10 =
      ⟨simNodeB10.toNode, 10, 0, 13.8, 0⟩ := by
    unfold gravityNode
    rw [hrB, hangB]
    dsimp only
    norm_num [Real.cos_zero, Real.sin_zero, simNodeB10]
  have hpin : pinPass "f"
      [(⟨simNodeF.toNode, 0, 0, 14, 0⟩ : SimulationNode),
        ⟨simNodeB10.toNode, 10, 0, 13.8, 0⟩] =
      [⟨simNodeF.toNode, 0, 0, 0, 0⟩, ⟨simNodeB10.toNode, 10, 0, 13.8, 0⟩] := by
    unfold pinPass
    simp only [List.map_cons, List.map_nil]
    rw [if_pos (show simNodeF.id = "f" from rfl),
      if_neg (show ¬ simNodeB10.id = "f" by decide)]
  have hone : onenessPass "f"
      [(⟨simNodeF.toNode, 0, 0, 0, 0⟩ : SimulationNode),
        ⟨simNodeB10.toNode, 10, 0, 13.8, 0⟩] =
      [⟨simNodeF.toNode, 0, 0, 0, 0⟩, ⟨simNodeB10.toNode, 10, 0, 13.8, 0⟩] := by
    unfold onenessPass
    simp only [List.map_cons, List.map_nil]
    rw [if_neg (show ¬ simNodeF.id = "oneness" by decide),
      if_neg (show ¬ simNodeB10.id = "oneness" by decide)]
  have hrs : repulsionStep (⟨simNodeF.toNode, 0, 0, 0, 0⟩ : SimulationNode)
        ⟨simNodeB10.toNode, 10, 0, 13.8, 0⟩ =
      (⟨simNodeF.toNode, -1, 0, -(160 / 11), 0⟩,
        ⟨simNodeB10.toNode, 11, 0, 13.8 + 160 / 11, 0⟩) := by
    unfold repulsionStep
    dsimp only
    rw [show ((10 : ℝ) - 0) * ((10 : ℝ) - 0) + ((0 : ℝ) - 0) * ((0 : ℝ) - 0) = 100 by
      norm_num]
    rw [if_neg (by norm_num : ¬ (100 : ℝ) = 0), sqrt_onehundred]
    norm_num [collisionRadius, simNodeF, simNodeB10]
    rw [if_neg (show ¬ ("religion" = "archetype" ∨ "religion" = "wave" ∨
      "religion" = "archetype" ∨ "religion" = "wave") by decide)]
    norm_num
  have hrep : repulsionPass
      [(⟨simNodeF.toNode, 0, 0, 0, 0⟩ : SimulationNode),
        ⟨simNodeB10.toNode, 10, 0, 13.8, 0⟩] =
      [⟨simNodeF.toNode, -1, 0, -(160 / 11), 0⟩,
        ⟨simNodeB10.toNode, 11, 0, 13.8 + 160 / 11, 0⟩] := by
    unfold repulsionPass
    rw [show pairIndices ([(⟨simNodeF.toNode, 0, 0, 0, 0⟩ : SimulationNode),
      ⟨simNodeB10.toNode, 10, 0, 13.8, 0⟩] : List SimulationNode).length = [(0, 1)] from rfl]
    simp only [List.foldl_cons, List.foldl_nil]
    rw [show ([(⟨simNodeF.toNode, 0, 0, 0, 0⟩ : SimulationNode),
        ⟨simNodeB10.toNode, 10, 0, 13.8, 0⟩].get? 0) =
      some ⟨simNodeF.toNode, 0, 0, 0, 0⟩ from rfl]
    rw [show ([(⟨simNodeF.toNode, 0, 0, 0, 0⟩ : SimulationNode),
        ⟨simNodeB10.toNode, 10, 0, 13.8, 0⟩].get? 1) =
      some ⟨simNodeB10.toNode, 10, 0, 13.8, 0⟩ from rfl]
    dsimp only
    rw [hrs]
    rfl
  have hfinal : (simulationStep 0 twoNodeSim).nodes =
      integratePass [⟨simNodeF.toNode, -1, 0, -(160 / 11), 0⟩,
        ⟨simNodeB10.toNode, 11, 0, 13.8 + 160 / 11, 0⟩] := by
    rw [simulationStep_nodes]
    rw [show effectiveFocus twoNodeSim = "f" from rfl]
    rw [show twoNodeSim.waveFocusId = "" from rfl]
    rw [if_pos rfl]
    rw [show twoNodeSim.edges = [] from rfl]
    rw [show twoNodeSim.nodes = [simNodeF, simNodeB10] from rfl]
    rw [show springPass "" [] [simNodeF, simNodeB10] = [simNodeF, simNodeB10] from rfl]
    rw [hdl]
    rw [show maxFiniteDistance [("f", none), ("b", none)] = 1 from rfl]
    rw [show gravityPass "" [] [("f", none), ("b", none)] 1 [simNodeF, simNodeB10] =
      [gravityNode "" [] [("f", none), ("b", none)] 1 simNodeF,
        gravityNode "" [] [("f", none), ("b", none)] 1 simNodeB10] from rfl]
    rw [hgF, hgB, hpin, hone, hrep]
  rw [hfinal]
  unfold integratePass
  simp only [List.map_cons, List.map_nil]
  refine ⟨_, rfl, rfl, ?_⟩
  show (-1 : ℝ) + -(160 / 11) * 0.86 ≠ 0
  norm_num

/-! ### C2 — root distance and unreachable nodes -/

/-- A one-node state whose focus has no incident edge. -/
noncomputable def isolatedSim : ForceSimulation :=
  { nodes := [simNodeF], edges := [], focusNodeId := "f",
    waveFocusId := "", metric := "combined" }

/-- **C2 (counterexample)** — With no incident edge the early return of
`shortestDistances` (lines 302–304) leaves the root itself at `Infinity`,
not `0`. -/
theorem shortestDistances_isolated_root_infinite :
    mapGet? (shortestDistances 5 isolatedSim "f") "f" = some none ∧
      mapGet? (shortestDistances 5 isolatedSim "f") "f" ≠ some (some 0) := by
  have h0 : mapGet? (shortestDistances 5 isolatedSim "f") "f" = some none := rfl
  refine ⟨h0, ?_⟩
  rw [h0]
  simp

/-- **C2 (amended)** — For every fuel, every node buffer containing the
root and every edge buffer with in-range scores: the root maps to `0`
whenever at least one edge touches it; when no edge touches the root,
every node — the root included — maps to `Infinity`; and every node with
no path to the root maps to `Infinity`. -/
theorem shortestDistances_root_and_unreachable (fuel : ℕ) (sim : ForceSimulation)
    (root : String) (hroot : ∃ n ∈ sim.nodes, n.id = root)
    (hw : ∀ e ∈ sim.edges, edgeScoresOK e) :
    ((∃ e ∈ sim.edges, e.source = root ∨ e.target = root) →
        mapGet? (shortestDistances fuel sim root) root = some (some 0)) ∧
      ((¬ ∃ e ∈ sim.edges, e.source = root ∨ e.target = root) →
        ∀ n ∈ sim.nodes, mapGet? (shortestDistances fuel sim root) n.id = some none) ∧
      (∀ n ∈ sim.nodes, ¬ Reachable sim.edges root n.id →
        mapGet? (shortestDistances fuel sim root) n.id = some none) :=
  shortestDistances_facts fuel sim root hw

/-- A lineage edge joining the two concrete nodes. -/
def fbEdge : Edge := { source := "f", target := "b", type := "lineage" }

/-- A two-node state where the focus has one incident edge. -/
noncomputable def edgeSim : ForceSimulation :=
  { nodes := [simNodeF, simNodeB10], edges := [fbEdge], focusNodeId := "f",
    waveFocusId := "", metric := "combined" }

/-- Witness for `shortestDistances_root_and_unreachable`: with an
incident edge the root's distance really is `0`. -/
theorem shortestDistances_root_witness :
    mapGet? (shortestDistances 5 edgeSim "f") "f" = some (some 0) :=
  (shortestDistances_root_and_unreachable 5 edgeSim "f"
      ⟨simNodeF, by simp [edgeSim], rfl⟩
      (by
        intro e he
        simp only [edgeSim, List.mem_singleton] at he
        subst he
        refine ⟨fun q h => ?_, fun q h => ?_, fun q h => ?_⟩ <;> simp [fbEdge] at h)).1
    ⟨fbEdge, by simp [edgeSim], Or.inl rfl⟩

/-! ### C8 — dangling edges are ignored -/

theorem nodeById?_none_iff (ns : List SimulationNode) (i : String) :
    nodeById? ns i = none ↔ ∀ n ∈ ns, ¬ n.id = i := by
  unfold nodeById?
  rw [List.getLast?_eq_none_iff, List.filter_eq_nil]
  simp

theorem springEdge_dangling (w : String) (ns : List SimulationNode) (e : Edge)
    (hd : nodeById? ns e.source = none ∨ nodeById? ns e.target = none) :
    springEdge w ns e = ns := by
  unfold springEdge
  rcases hd with hd | hd
  · rw [hd]
  · rw [hd]
    cases h1 : nodeById? ns e.source <;> rfl

theorem springPass_not_id (w : String) (es : List Edge) (ns : List SimulationNode)
    (k : String) (h : ∀ n ∈ ns, ¬ n.id = k) :
    ∀ n' ∈ springPass w es ns, ¬ n'.id = k := by
  intro n' hn'
  have hmemmap : n'.toNode ∈ (springPass w es ns).map SimulationNode.toNode :=
    List.mem_map_of_mem _ hn'
  rw [springPass_toNode] at hmemmap
  obtain ⟨n, hn, heq⟩ := List.mem_map.mp hmemmap
  have hid : n'.id = n.id := by
    show n'.toNode.id = n.toNode.id
    rw [heq]
  rw [hid]
  exact h n hn

/-- **C8** — A dangling edge (an endpoint id resolving to no node of the
buffer) is harmless: the spring pass over a buffer containing it equals
the spring pass with the edge removed, and an id carried by no node —
such as the dangling endpoint of a non-focus edge — never acquires a
distance entry. (In the fuel-free total model, that the tick is a total
function already reflects that nothing is thrown.) -/
theorem dangling_edge_ignored (w : String) (ns : List SimulationNode)
    (es₁ es₂ : List Edge) (e : Edge) (fuel : ℕ) (f wv m root k : String)
    (hd : nodeById? ns e.source = none ∨ nodeById? ns e.target = none)
    (hk : ∀ n ∈ ns, ¬ n.id = k) (hkr : k ≠ root) :
    springPass w (es₁ ++ e :: es₂) ns = springPass w (es₁ ++ es₂) ns ∧
      mapGet? (shortestDistances fuel ⟨ns, es₁ ++ e :: es₂, f, wv, m⟩ root) k = none := by
  constructor
  · show (es₁ ++ e :: es₂).foldl (springEdge w) ns = (es₁ ++ es₂).foldl (springEdge w) ns
    rw [List.foldl_append, List.foldl_append, List.foldl_cons]
    have hd' : nodeById? (es₁.foldl (springEdge w) ns) e.source = none ∨
        nodeById? (es₁.foldl (springEdge w) ns) e.target = none := by
      rcases hd with hd | hd
      · exact Or.inl ((nodeById?_none_iff _ _).mpr
          (springPass_not_id w es₁ ns e.source ((nodeById?_none_iff _ _).mp hd)))
      · exact Or.inr ((nodeById?_none_iff _ _).mpr
          (springPass_not_id w es₁ ns e.target ((nodeById?_none_iff _ _).mp hd)))
    rw [springEdge_dangling w _ e hd']
  · exact shortestDistances_get_none fuel _ root k hk hkr

/-- A dangling edge from the focus to a `"ghost"` id. -/
def ghostEdge : Edge := { source := "f", target := "ghost", type := "cross" }

/-- Witness for `dangling_edge_ignored`: with the buffer `[f]` and the
single dangling edge `f → ghost`, the spring pass is the identity it
would be without the edge, and `"ghost"` gets no distance entry. -/
theorem dangling_edge_ignored_witness :
    springPass "" ([] ++ ghostEdge :: []) [simNodeF] = springPass "" ([] ++ []) [simNodeF] ∧
      mapGet? (shortestDistances 3 ⟨[simNodeF], [] ++ ghostEdge :: [], "f", "", "combined"⟩
        "f") "ghost" = none :=
  dangling_edge_ignored "" [simNodeF] [] [] ghostEdge 3 "f" "" "combined" "f" "ghost"
    (Or.inr (by
      rw [nodeById?_none_iff]
      intro n hn
      simp only [List.mem_singleton] at hn
      subst hn
      decide))
    (by
      intro n hn
      simp only [List.mem_singleton] at hn
      subst hn
      decide)
    (by decide)

/-! ### C3 — every division of the tick is guarded

A checked copy of the tick evaluates every source-level division through
`divCk` (failing on a zero divisor, the way a JavaScript division by zero
mints `Infinity`/`NaN`) and every square root through `sqrtCk` (failing
on a negative argument). Proving it total and equal to the plain tick
shows no tick can mint a non-finite value in the real-valued model. -/

/-- A division that fails instead of dividing by zero. -/
noncomputable def divCk (a b : ℝ) : Option ℝ := if b = 0 then none else some (a / b)

/-- A square root that fails on negative arguments. -/
noncomputable def sqrtCk (a : ℝ) : Option ℝ := if a < 0 then none else some (Real.sqrt a)

theorem divCk_eq {a b : ℝ} (h : b ≠ 0) : divCk a b = some (a / b) := if_neg h

theorem sqrtCk_eq {a : ℝ} (h : 0 ≤ a) : sqrtCk a = some (Real.sqrt a) :=
  if_neg (not_lt.mpr h)

theorem jsOr_pos {a b : ℝ} (ha : 0 ≤ a) (hb : 0 < b) : 0 < jsOr a b := by
  unfold jsOr
  split
  · exact hb
  · rename_i h
    exact lt_of_le_of_ne ha (Ne.symm h)

/-- `springEdge` with both divisions by the clamped distance checked. -/
noncomputable def springEdgeCk (waveFocusId : String) (ns : List SimulationNode) (e : Edge) :
    Option (List SimulationNode) :=
  match nodeById? ns e.source, nodeById? ns e.target with
  | some sourceNode, some targetNode =>
    let dx := targetNode.x - sourceNode.x
    let dy := targetNode.y - sourceNode.y
    (sqrtCk (dx * dx + dy * dy)).bind (fun s =>
      let distance := jsOr s 1e-6
      (divCk dx distance).bind (fun nx =>
        (divCk dy distance).bind (fun ny =>
          let springStrength :=
            if waveFocusId ≠ "" ∧ (e.source = waveFocusId ∨ e.target = waveFocusId) then
              springStrengthOf e.type * 2.3
            else springStrengthOf e.type
          let force := (distance - springBaseLength e.type) * springStrength
          let ns := ns.map (fun n =>
            if n.id = e.source then
              { n with vx := n.vx + force * nx, vy := n.vy + force * ny }
            else n)
          some (ns.map (fun n =>
            if n.id = e.target then
              { n with vx := n.vx - force * nx, vy := n.vy - force * ny }
            else n)))))
  | _, _ => some ns

/-- The checked spring pass. -/
noncomputable def springPassCk (waveFocusId : String) (edges : List Edge)
    (ns : List SimulationNode) : Option (List SimulationNode) :=
  edges.foldl (fun acc e => acc.bind (fun ns => springEdgeCk waveFocusId ns e)) (some ns)

/-- `gravityTargetRadius` with the normalised-distance division checked. -/
noncomputable def gravityTargetRadiusCk (waveFocusId : String) (waveNeighbors : List String)
    (distances : DistMap) (maxDistance : ℚ) (n : SimulationNode) : Option ℝ :=
  match jsOrInfinity (mapGet? distances n.id) with
  | none =>
    let targetRadius : ℝ := 80 + 620 * 1
    some (if waveFocusId ≠ "" ∧ (n.id ∈ waveNeighbors ∨ n.id = waveFocusId) then
      targetRadius * 0.55 else targetRadius)
  | some q =>
    (divCk (q : ℝ) (maxDistance : ℝ)).map (fun normalizedDistance =>
      let targetRadius : ℝ := 80 + 620 * normalizedDistance
      if waveFocusId ≠ "" ∧ (n.id ∈ waveNeighbors ∨ n.id = waveFocusId) then
        targetRadius * 0.55
      else targetRadius)

/-- The checked gravity nudge of one node. -/
noncomputable def gravityNodeCk (waveFocusId : String) (waveNeighbors : List String)
    (distances : DistMap) (maxDistance : ℚ) (n : SimulationNode) : Option SimulationNode :=
  (gravityTargetRadiusCk waveFocusId waveNeighbors distances maxDistance n).map
    (fun targetRadius =>
      let angle := atan2 n.y n.x
      let targetX := Real.cos angle * targetRadius
      let targetY := Real.sin angle * targetRadius
      let gravityStrength : ℝ := if waveFocusId ≠ "" then 0.03 else 0.02
      { n with vx := n.vx + (targetX - n.x) * gravityStrength,
               vy := n.vy + (targetY - n.y) * gravityStrength })

/-- The checked gravity pass. -/
noncomputable def gravityPassCk (waveFocusId : String) (waveNeighbors : List String)
    (distances : DistMap) (maxDistance : ℚ) (ns : List SimulationNode) :
    Option (List SimulationNode) :=
  ns.foldr
    (fun n acc =>
      (gravityNodeCk waveFocusId waveNeighbors distances maxDistance n).bind
        (fun n' => acc.map (fun l => n' :: l)))
    (some [])

/-- `repulsionStep` with every division (repulsion denominator, unit
direction, collision push) and the square root checked. -/
noncomputable def repulsionStepCk (nodeA nodeB : SimulationNode) :
    Option (SimulationNode × SimulationNode) :=
  let dx := nodeB.x - nodeA.x
  let dy := nodeB.y - nodeA.y
  let distanceSquared := dx * dx + dy * dy
  if distanceSquared = 0 then
    some ({ nodeA with vx := nodeA.vx - 0.5, vy := nodeA.vy - 0.5 },
      { nodeB with vx := nodeB.vx + 0.5, vy := nodeB.vy + 0.5 })
  else
    (sqrtCk distanceSquared).bind (fun distance =>
      let repulsionBase : ℝ :=
        if nodeA.kind = "archetype" ∨ nodeA.kind = "wave" ∨
            nodeB.kind = "archetype" ∨ nodeB.kind = "wave" then 3200
        else 1600
      (divCk repulsionBase (distanceSquared + 10)).bind (fun repulsion =>
        (divCk (repulsion * dx) distance).bind (fun rx =>
          (divCk (repulsion * dy) distance).bind (fun ry =>
            let nodeA := { nodeA with vx := nodeA.vx - rx, vy := nodeA.vy - ry }
            let nodeB := { nodeB with vx := nodeB.vx + rx, vy := nodeB.vy + ry }
            let minDistance := collisionRadius nodeA + collisionRadius nodeB
            if distance < minDistance then
              (divCk ((minDistance - distance) * 0.05 * dx) distance).bind (fun px =>
                (divCk ((minDistance - distance) * 0.05 * dy) distance).map (fun py =>
                  ({ nodeA with x := nodeA.x - px, y := nodeA.y - py },
                    { nodeB with x := nodeB.x + px, y := nodeB.y + py })))
            else some (nodeA, nodeB)))))

/-- The checked repulsion/collision pass. -/
noncomputable def repulsionPassCk (ns : List SimulationNode) :
    Option (List SimulationNode) :=
  (pairIndices ns.length).foldl
    (fun acc ij =>
      acc.bind (fun ns' =>
        match ns'.get? ij.1, ns'.get? ij.2 with
        | some a, some b =>
          (repulsionStepCk a b).map (fun ab => (ns'.set ij.1 ab.1).set ij.2 ab.2)
        | _, _ => some ns'))
    (some ns)

/-- The checked tick: every source-level division and square root of the
spring, gravity, repulsion and collision passes is guarded. -/
noncomputable def simulationStepChecked (fuel : ℕ) (sim : ForceSimulation) :
    Option ForceSimulation :=
  let focusId := effectiveFocus sim
  let distances := shortestDistances fuel sim focusId
  let maxDistance := maxFiniteDistance distances
  let waveNeighbors :=
    if sim.waveFocusId = "" then [] else getWaveNeighbors sim.edges sim.waveFocusId
  (springPassCk sim.waveFocusId sim.edges sim.nodes).bind (fun ns =>
    (gravityPassCk sim.waveFocusId waveNeighbors distances maxDistance ns).bind (fun ns =>
      (repulsionPassCk (onenessPass focusId (pinPass focusId ns))).map (fun ns =>
        { sim with nodes := integratePass ns })))

/-- The checked tick iterated. -/
noncomputable def iterateChecked (fuel : ℕ) : ℕ → ForceSimulation → Option ForceSimulation
  | 0, sim => some sim
  | k + 1, sim => (simulationStepChecked fuel sim).bind (iterateChecked fuel k)

theorem springEdgeCk_eq (w : String) (ns : List SimulationNode) (e : Edge) :
    springEdgeCk w ns e = some (springEdge w ns e) := by
  unfold springEdgeCk springEdge
  cases h1 : nodeById? ns e.source with
  | none => cases h2 : nodeById? ns e.target <;> rfl
  | some s =>
    cases h2 : nodeById? ns e.target with
    | none => rfl
    | some t =>
      dsimp only
      have hsq : (0 : ℝ) ≤ (t.x - s.x) * (t.x - s.x) + (t.y - s.y) * (t.y - s.y) :=
        add_nonneg (mul_self_nonneg _) (mul_self_nonneg _)
      rw [sqrtCk_eq hsq]
      have hd : jsOr (Real.sqrt ((t.x - s.x) * (t.x - s.x) + (t.y - s.y) * (t.y - s.y)))
          1e-6 ≠ 0 :=
        ne_of_gt (jsOr_pos (Real.sqrt_nonneg _) (by norm_num))
      simp only [Option.some_bind]
      rw [divCk_eq hd, divCk_eq hd]
      rfl

theorem springPassCk_eq (w : String) :
    ∀ (edges : List Edge) (ns : List SimulationNode),
      springPassCk w edges ns = some (springPass w edges ns) := by
  intro edges
  induction edges with
  | nil => exact fun ns => rfl
  | cons e es ih =>
    intro ns
    show (es.foldl _ ((some ns).bind (fun ns => springEdgeCk w ns e))) = _
    rw [show ((some ns).bind (fun ns => springEdgeCk w ns e)) = springEdgeCk w ns e from
      rfl, springEdgeCk_eq]
    exact ih (springEdge w ns e)

theorem le_foldl_max : ∀ (l : List ℚ) (b : ℚ), b ≤ l.foldl max b := by
  intro l
  induction l with
  | nil => exact fun b => le_refl b
  | cons c l ih => exact fun b => le_trans (le_max_left b c) (ih (max b c))

theorem mem_le_foldl_max : ∀ (l : List ℚ) (b q : ℚ), q ∈ l → q ≤ l.foldl max b := by
  intro l
  induction l with
  | nil => intro b q h; simp at h
  | cons c l ih =>
    intro b q h
    rcases List.mem_cons.mp h with rfl | h
    · exact le_trans (le_max_right b q) (le_foldl_max l (max b q))
    · exact ih (max b c) q h

theorem maxFiniteDistance_ge (dist : DistMap) (k : String) (q : ℚ)
    (h : mapGet? dist k = some (some q)) : q ≤ maxFiniteDistance dist := by
  have hfind : ∃ p, dist.find? (fun p => p.1 = k) = some p ∧ p.2 = some q := by
    unfold mapGet? at h
    exact Option.map_eq_some'.mp h
  obtain ⟨p, hp, hp2⟩ := hfind
  have hpmem : p ∈ dist := List.mem_of_find?_eq_some hp
  have hvmem : some q ∈ dist.map Prod.snd := by
    rw [← hp2]
    exact List.mem_map_of_mem Prod.snd hpmem
  have hqmem : q ∈ (dist.map Prod.snd).filterMap id :=
    List.mem_filterMap.mpr ⟨some q, hvmem, rfl⟩
  unfold maxFiniteDistance
  cases hfl : (dist.map Prod.snd).filterMap id with
  | nil => rw [hfl] at hqmem; simp at hqmem
  | cons h0 t =>
    rw [hfl] at hqmem
    rcases List.mem_cons.mp hqmem with rfl | hqt
    · exact le_foldl_max t q
    · exact mem_le_foldl_max t h0 q hqt

theorem jsOrInfinity_some {o : Option (Option ℚ)} {q : ℚ} (h : jsOrInfinity o = some q) :
    o = some (some q) ∧ q ≠ 0 := by
  cases o with
  | none => simp [jsOrInfinity] at h
  | some v =>
    cases v with
    | none => simp [jsOrInfinity] at h
    | some r =>
      by_cases hr : r = 0
      · rw [show jsOrInfinity (some (some r)) = none from by simp [jsOrInfinity, hr]] at h
        simp at h
      · rw [show jsOrInfinity (some (some r)) = some r from by simp [jsOrInfinity, hr]] at h
        injection h with h
        subst h
        exact ⟨rfl, hr⟩

theorem gravityNodeCk_eq (w : String) (wn : List String) (distances : DistMap)
    (maxDistance : ℚ) (n : SimulationNode)
    (hok : ∀ q : ℚ, jsOrInfinity (mapGet? distances n.id) = some q →
      ((maxDistance : ℚ) : ℝ) ≠ 0) :
    gravityNodeCk w wn distances maxDistance n =
      some (gravityNode w wn distances maxDistance n) := by
  unfold gravityNodeCk gravityNode gravityTargetRadiusCk gravityTargetRadius
  cases hj : jsOrInfinity (mapGet? distances n.id) with
  | none => rfl
  | some q =>
    dsimp only
    rw [divCk_eq (hok q hj)]
    rfl

theorem gravityPassCk_eq (w : String) (wn : List String) (distances : DistMap)
    (maxDistance : ℚ)
    (hok : ∀ (k : String) (q : ℚ), jsOrInfinity (mapGet? distances k) = some q →
      ((maxDistance : ℚ) : ℝ) ≠ 0) :
    ∀ ns : List SimulationNode,
      gravityPassCk w wn distances maxDistance ns =
        some (gravityPass w wn distances maxDistance ns) := by
  intro ns
  induction ns with
  | nil => rfl
  | cons n ns ih =>
    show ((gravityNodeCk w wn distances maxDistance n).bind fun n' =>
      (gravityPassCk w wn distances maxDistance ns).map fun l => n' :: l) = _
    rw [gravityNodeCk_eq w wn distances maxDistance n (fun q h => hok n.id q h), ih]
    rfl

theorem repulsionStepCk_eq (a b : SimulationNode) :
    repulsionStepCk a b = some (repulsionStep a b) := by
  unfold repulsionStepCk repulsionStep
  dsimp only
  by_cases h0 : (b.x - a.x) * (b.x - a.x) + (b.y - a.y) * (b.y - a.y) = 0
  · rw [if_pos h0, if_pos h0]
  · rw [if_neg h0, if_neg h0]
    have hsq0 : (0 : ℝ) ≤ (b.x - a.x) * (b.x - a.x) + (b.y - a.y) * (b.y - a.y) :=
      add_nonneg (mul_self_nonneg _) (mul_self_nonneg _)
    have hpos : (0 : ℝ) < (b.x - a.x) * (b.x - a.x) + (b.y - a.y) * (b.y - a.y) :=
      lt_of_le_of_ne hsq0 (Ne.symm h0)
    rw [sqrtCk_eq hsq0]
    have hdist : Real.sqrt ((b.x - a.x) * (b.x - a.x) + (b.y - a.y) * (b.y - a.y)) ≠ 0 :=
      ne_of_gt (Real.sqrt_pos.mpr hpos)
    have hden : (b.x - a.x) * (b.x - a.x) + (b.y - a.y) * (b.y - a.y) + 10 ≠ 0 :=
      ne_of_gt (by linarith)
    simp only [Option.some_bind]
    rw [divCk_eq hden]
    simp only [Option.some_bind]
    rw [divCk_eq hdist]
    simp only [Option.some_bind]
    rw [divCk_eq hdist]
    simp only [Option.some_bind]
    split_ifs <;>
      first
        | rfl
        | (rw [divCk_eq hdist]
           simp only [Option.some_bind]
           rw [divCk_eq hdist]
           rfl)

theorem repulsionPassCk_eq (ns : List SimulationNode) :
    repulsionPassCk ns = some (repulsionPass ns) := by
  unfold repulsionPassCk repulsionPass
  generalize pairIndices ns.length = pairs
  induction pairs generalizing ns with
  | nil => rfl
  | cons ij pairs ih =>
    rw [List.foldl_cons, List.foldl_cons]
    show pairs.foldl _ ((some ns).bind _) = _
    rw [show ((some ns).bind fun ns' =>
      match ns'.get? ij.1, ns'.get? ij.2 with
      | some a, some b =>
        (repulsionStepCk a b).map fun ab => (ns'.set ij.1 ab.1).set ij.2 ab.2
      | _, _ => some ns') =
      (match ns.get? ij.1, ns.get? ij.2 with
      | some a, some b =>
        (repulsionStepCk a b).map fun ab => (ns.set ij.1 ab.1).set ij.2 ab.2
      | _, _ => some ns) from rfl]
    cases ha : ns.get? ij.1 with
    | none =>
      cases hb : ns.get? ij.2 with
      | none => exact ih ns
      | some b => exact ih ns
    | some a =>
      cases hb : ns.get? ij.2 with
      | none => exact ih ns
      | some b =>
        dsimp only
        rw [repulsionStepCk_eq]
        exact ih _

theorem simulationStepChecked_eq (fuel : ℕ) (sim : ForceSimulation)
    (hw : ∀ e ∈ sim.edges, edgeScoresOK e) :
    simulationStepChecked fuel sim = some (simulationStep fuel sim) := by
  have hok : ∀ (k : String) (q : ℚ),
      jsOrInfinity (mapGet? (shortestDistances fuel sim (effectiveFocus sim)) k) = some q →
      ((maxFiniteDistance (shortestDistances fuel sim (effectiveFocus sim)) : ℚ) : ℝ) ≠ 0 := by
    intro k q hj
    obtain ⟨hget, hq0⟩ := jsOrInfinity_some hj
    have hnn := shortestDistances_nonneg fuel sim (effectiveFocus sim) hw k q hget
    have hle := maxFiniteDistance_ge _ k q hget
    have hpos : (0 : ℚ) < maxFiniteDistance (shortestDistances fuel sim (effectiveFocus sim)) :=
      lt_of_lt_of_le (lt_of_le_of_ne hnn (Ne.symm hq0)) hle
    exact ne_of_gt (by exact_mod_cast hpos)
  unfold simulationStepChecked
  rw [springPassCk_eq]
  show ((gravityPassCk _ _ _ _ _).bind _) = _
  rw [gravityPassCk_eq _ _ _ _ hok]
  show ((repulsionPassCk _).map _) = _
  rw [repulsionPassCk_eq]
  rfl

/-- **C3** — For every finite well-formed input (scores in range, real
positions/velocities), any number of ticks completes with every division
and square root of the spring, gravity, repulsion and collision passes
guarded: the checked run never fails and agrees with the plain tick, so
no `NaN`/`Infinity` can arise in the real-valued model. -/
theorem ticks_checked_total (fuel k : ℕ) (sim : ForceSimulation)
    (hw : ∀ e ∈ sim.edges, edgeScoresOK e) :
    iterateChecked fuel k sim = some ((fun s => simulationStep fuel s)^[k] sim) := by
  induction k generalizing sim with
  | zero => rfl
  | succ k ih =>
    show (simulationStepChecked fuel sim).bind (iterateChecked fuel k) = _
    rw [simulationStepChecked_eq fuel sim hw]
    show iterateChecked fuel k (simulationStep fuel sim) = _
    rw [ih (simulationStep fuel sim)
      (by rw [show (simulationStep fuel sim).edges = sim.edges from rfl]; exact hw)]
    rw [Function.iterate_succ_apply]

/-- Witness for `ticks_checked_total`: one checked tick of the concrete
two-node state succeeds. -/
theorem ticks_checked_total_witness :
    iterateChecked 0 1 twoNodeSim = some ((fun s => simulationStep 0 s)^[1] twoNodeSim) :=
  ticks_checked_total 0 1 twoNodeSim (by
    intro e he
    simp [twoNodeSim] at he)

end Eoeo
